import Mathlib

/-!
The scrape-and-project cycle of `main.go` in netgear-prometheus-exporter.

A shallow embedding of `getMetrics` (and of the `err := getMetrics(); if err != nil
{ panic(err) }` step of `main`) together with the library operations it calls:

* `strings.Replace`, `strings.TrimSpace` (Go standard library);
* the part of `goquery` / `cascadia` used by the program: `Find`, `Each`, `First`,
  `Next`, `Text`, `Attr`, and the three selectors `.in-frame-table table tr`, `td`
  and `input[name=webToken]`;
* `GaugeVec.WithLabelValues(...).Set(v)` of the Prometheus client.

Modelling conventions.

* The program is embedded at two levels. At the text level (namespace `Netgear`) a Go
  `string` is a Lean `String`, so every text is valid UTF-8 and the check of the label
  values by `WithLabelValues` always passes. At the byte level (namespace
  `NetgearBytes`) a Go `string` is a sequence of bytes, valid UTF-8 or not, and
  `WithLabelValues` panics on a label value that is not valid UTF-8. The statements
  that every page or row is projected without error are made at the byte level.
* `strconv.ParseFloat(·, 64)` is a parameter `ParseFloat : String → Option F`: the
  value when the returned `err` is `nil`, `none` when it is not. The type `F` of gauge
  values is abstract (it stands for `float64`); the only constant the program needs
  in it is `1.0`.
* HTML parsing is not modelled: a page is the node tree that `html.Parse` built.
* A selected node is a `Loc`: the node with its following siblings and its chain of
  ancestors, which is what `n.NextSibling` and `n.Parent` give access to in Go.
* The metric registry (the six package-level `GaugeVec`s) and the `log` output are an
  explicit `State` that is threaded through the cycle.
-/

namespace Netgear

/-! ## Go strings -/

/-- Go `unicode.IsSpace`: the Latin-1 space characters, and beyond Latin-1 the code
points with the Unicode `White_Space` property. -/
def IsSpace (c : Char) : Bool :=
  let r := c.toNat
  if r ≤ 0xFF then
    r == 0x09 || r == 0x0A || r == 0x0B || r == 0x0C || r == 0x0D || r == 0x20 ||
      r == 0x85 || r == 0xA0
  else
    r == 0x1680 || (0x2000 ≤ r && r ≤ 0x200A) || r == 0x2028 || r == 0x2029 ||
      r == 0x202F || r == 0x205F || r == 0x3000

/-- Go `strings.TrimSpace`: all leading and trailing white space removed. -/
def TrimSpace (s : String) : String :=
  ⟨(s.data.dropWhile IsSpace).rdropWhile IsSpace⟩

/-- The scan of `strings.Replace` for a non-empty `old`: `budget` is the number of
replacements still allowed (`none`: no limit), `skip` the number of characters of the
occurrence just replaced that are still to be passed over. Occurrences are found
left to right and do not overlap. -/
def replaceScan (old new : List Char) : Option Nat → Nat → List Char → List Char
  | _, _, [] => []
  | budget, skip + 1, _ :: cs => replaceScan old new budget skip cs
  | budget, 0, c :: cs =>
    if budget ≠ some 0 ∧ old.isPrefixOf (c :: cs) then
      new ++ replaceScan old new (budget.map (· - 1)) (old.length - 1) cs
    else
      c :: replaceScan old new budget 0 cs

/-- The case `old == ""` of `strings.Replace`: `new` is inserted at the start of the
string and after each character, as long as the budget allows. -/
def replaceEmpty (new : List Char) : Option Nat → List Char → List Char
  | budget, [] => if budget = some 0 then [] else new
  | budget, c :: cs =>
    if budget = some 0 then c :: cs
    else new ++ c :: replaceEmpty new (budget.map (· - 1)) cs

/-- Go `strings.Replace(s, old, new, n)`: the first `n` non-overlapping occurrences of
`old` replaced by `new`, all of them when `n < 0`. -/
def Replace (s old new : String) (n : Int) : String :=
  if old = new ∨ n = 0 then s
  else
    let budget : Option Nat := if n < 0 then none else some n.toNat
    if old.data = [] then ⟨replaceEmpty new.data budget s.data⟩
    else ⟨replaceScan old.data new.data budget 0 s.data⟩

/-! ## The HTML tree (`golang.org/x/net/html`) -/

/-- The node types of `html.Node`. -/
inductive NodeType where
  | ErrorNode
  | TextNode
  | DocumentNode
  | ElementNode
  | CommentNode
  | DoctypeNode
  deriving DecidableEq, Repr

/-- An attribute of an element: `html.Attribute` (key and value). -/
structure Attribute where
  Key : String
  Val : String
  deriving DecidableEq, Repr

/-- A node of the parsed page: `html.Node` with its children in document order. For
an element `Data` is the tag name, for a text node it is the text. -/
inductive Node where
  | mk (type : NodeType) (data : String) (attr : List Attribute) (children : List Node)

namespace Node

/-- The `Type` field of a node. -/
def type : Node → NodeType
  | .mk t _ _ _ => t

/-- The `Data` field of a node. -/
def data : Node → String
  | .mk _ d _ _ => d

/-- The `Attr` field of a node. -/
def attr : Node → List Attribute
  | .mk _ _ a _ => a

/-- The children of a node, first child first. -/
def children : Node → List Node
  | .mk _ _ _ cs => cs

/-- A text node. -/
def text (s : String) : Node := .mk .TextNode s [] []

/-- An element node. -/
def element (tag : String) (attrs : List Attribute) (cs : List Node) : Node :=
  .mk .ElementNode tag attrs cs

/-- A document node, the root of a parsed page. -/
def document (cs : List Node) : Node := .mk .DocumentNode "" [] cs

end Node

/-- A node as a Go pointer sees it: the node, its following siblings (the
`NextSibling` chain) and its ancestors (the `Parent` chain, nearest first). -/
structure Loc where
  node : Node
  next : List Node
  ancestors : List Node

/-- A goquery `Selection`: located nodes in document order. -/
abbrev Selection := List Loc

/-- A compiled selector (`cascadia.Selector`): a test on a node that may inspect the
node's ancestors (nearest first). -/
abbrev Matcher := List Node → Node → Bool

/-- The type selector `tag`: an element node with that tag name. -/
def tagSel (tag : String) : Matcher :=
  fun _ n => n.type == .ElementNode && n.data == tag

/-- The loop of cascadia's `matchInclude`: `tok` is the current token in reverse. A
token closed by a separator is compared with `val`; the last one only when it is not
empty. -/
def matchIncludeScan (val : List Char) : List Char → List Char → Bool
  | tok, [] => tok ≠ [] && tok.reverse == val
  | tok, c :: cs =>
    if c == ' ' || c == '\t' || c == '\r' || c == '\n' || c.toNat == 0x0C then
      tok.reverse == val || matchIncludeScan val [] cs
    else matchIncludeScan val (c :: tok) cs

/-- The class selector `.cls`: an element with a `class` attribute one of whose
white-space separated words is `cls`. -/
def classSel (cls : String) : Matcher :=
  fun _ n => n.type == .ElementNode &&
    n.attr.any (fun a => a.Key == "class" && matchIncludeScan cls.data [] a.Val.data)

/-- The attribute selector `[key=val]`: an element with an attribute `key` whose
value is `val`. -/
def attrEqSel (key val : String) : Matcher :=
  fun _ n => n.type == .ElementNode && n.attr.any (fun a => a.Key == key && a.Val == val)

/-- A compound selector such as `input[name=webToken]`: both parts match the node. -/
def andSel (a b : Matcher) : Matcher :=
  fun anc n => a anc n && b anc n

/-- Whether some node of the ancestor chain matches `a` (each with its own
ancestors). -/
def anyAncestor (a : Matcher) : List Node → Bool
  | [] => false
  | p :: ps => a ps p || anyAncestor a ps

/-- The descendant combinator `a b`: the node matches `b` and one of its ancestors
matches `a`. -/
def descendantSel (a b : Matcher) : Matcher :=
  fun anc n => b anc n && anyAncestor a anc

mutual
/-- All matches in the subtree of a node, the node included, in document order:
cascadia `MatchAll`. -/
def matchAll (m : Matcher) (anc : List Node) : Node → List Node → List Loc
  | .mk t d a cs, sibs =>
    (if m anc (.mk t d a cs) then [⟨.mk t d a cs, sibs, anc⟩] else []) ++
      matchAllList m (.mk t d a cs :: anc) cs
/-- The matches in the subtrees of a list of siblings, in document order. -/
def matchAllList (m : Matcher) (anc : List Node) : List Node → List Loc
  | [] => []
  | c :: cs => matchAll m anc c cs ++ matchAllList m anc cs
end

/-- The loop of goquery `findWithMatcher` over the children of one node: the matches
inside each child that is an element. -/
def findInChildren (m : Matcher) (anc : List Node) : List Node → List Loc
  | [] => []
  | c :: cs =>
    (if c.type == .ElementNode then matchAll m anc c cs else []) ++ findInChildren m anc cs

/-- The descendants of a located node that match `m`, in document order. -/
def Loc.find (m : Matcher) (l : Loc) : Selection :=
  findInChildren m (l.node :: l.ancestors) l.node.children

/-- The next sibling that is an element, located: what goquery `Next` yields for one
node. -/
def nextElement (anc : List Node) : List Node → Option Loc
  | [] => none
  | c :: cs => if c.type == .ElementNode then some ⟨c, cs, anc⟩ else nextElement anc cs

mutual
/-- The text of a node: the data of the text nodes of its subtree, concatenated in
document order (the inner function of goquery `Text`). -/
def nodeText : Node → String
  | .mk t d _ cs => (if t = .TextNode then d else "") ++ nodesText cs
/-- The text of a list of sibling nodes. -/
def nodesText : List Node → String
  | [] => ""
  | c :: cs => nodeText c ++ nodesText cs
end

namespace Selection

/-- The goquery `Find` on a selection. goquery also removes duplicates, which arise
only when one node of the selection is inside another; the program calls `Find` on
selections of one node. -/
def Find (s : Selection) (m : Matcher) : Selection :=
  s.flatMap (Loc.find m)

/-- The goquery `First`: the selection reduced to its first node. -/
def First (s : Selection) : Selection :=
  s.take 1

/-- The goquery `Next`: for each node its immediately following sibling element.
(The program applies it to selections of at most one node.) -/
def Next (s : Selection) : Selection :=
  s.filterMap (fun l => nextElement l.ancestors l.next)

/-- The goquery `Text`: the combined text of the nodes of the selection. -/
def Text (s : Selection) : String :=
  s.foldl (fun acc l => acc ++ nodeText l.node) ""

/-- The goquery `Attr`: the value of the attribute of the first node of the
selection, and whether it exists. -/
def Attr (s : Selection) (attrName : String) : String × Bool :=
  match s with
  | [] => ("", false)
  | l :: _ =>
    match l.node.attr.find? (fun a => a.Key == attrName) with
    | some a => (a.Val, true)
    | none => ("", false)

/-- The loop of goquery `Each`: the callback is applied to every node with its
index. -/
def eachFrom {σ : Type} (f : Nat → Loc → σ → σ) : Nat → Selection → σ → σ
  | _, [], st => st
  | i, l :: ls, st => eachFrom f (i + 1) ls (f i l st)

/-- The goquery `Each`, run on an explicit state. -/
def Each {σ : Type} (s : Selection) (f : Nat → Loc → σ → σ) (st : σ) : σ :=
  eachFrom f 0 s st

end Selection

/-- The goquery `doc.Find`: the search starts at the root of the page. -/
def docFind (doc : Node) (m : Matcher) : Selection :=
  Selection.Find [⟨doc, [], []⟩] m

/-! ## The Prometheus registry and the log -/

/-- A Prometheus `GaugeVec`: the gauges that exist, by their label values. -/
abbrev GaugeVec (F : Type) := List String → Option F

/-- The effect of `g.WithLabelValues(lvs...).Set(v)` for label values that are valid
UTF-8, as all texts of this level are: the gauge with these label values is created
if need be and holds `v` afterwards. The panic of `WithLabelValues` on other label
values is at the byte level, `NetgearBytes.setGauge`. -/
def GaugeVec.set {F : Type} (g : GaugeVec F) (lvs : List String) (v : F) : GaugeVec F :=
  fun k => if k = lvs then some v else g k

/-- A gauge vector after an update that happens only when a value is there: `g` itself
for `none`, `g.set lvs v` for `some v`. -/
def GaugeVec.setOpt {F : Type} (g : GaugeVec F) (lvs : List String) : Option F → GaugeVec F
  | none => g
  | some v => g.set lvs v

/-- The six package-level gauge vectors of `main.go`. -/
structure Metrics (F : Type) where
  channelInfo : GaugeVec F
  power : GaugeVec F
  snrmer : GaugeVec F
  unerroredCodewords : GaugeVec F
  correctableCodewords : GaugeVec F
  uncorrectableCodewords : GaugeVec F

/-- A line written by `log.Printf`: the ten texts of a projected row, or the report
of a numeric field that `ParseFloat` rejected (the field and the string it was
given). -/
inductive LogLine where
  | row (texts : List String)
  | parseError (field : String) (num : String)
  deriving DecidableEq, Repr

/-- Whether a log line is the line of a projected row. -/
def LogLine.isRow : LogLine → Bool
  | .row _ => true
  | .parseError _ _ => false

/-- The mutable state of the process: the registry and the log written so far. -/
structure State (F : Type) where
  metrics : Metrics F
  log : List LogLine

/-! ## `getMetrics`, lines 125-202: the status table -/

/-- The texts of the ten selections `Channel` ... `UncorrectableCodewords` of one
row. -/
structure RowTexts where
  Channel : String
  LockStatus : String
  Modulation : String
  ChannelID : String
  Frequency : String
  Power : String
  SNRMER : String
  UnerroredCodewords : String
  CorrectableCodewords : String
  UncorrectableCodewords : String
  deriving DecidableEq, Repr

/-- Lines 134-144: `Channel := cells.First()`, every further selection the `Next()` of
the one before, each read with `Text()`. -/
def readCells (cells : Selection) : RowTexts :=
  let Channel := cells.First
  let LockStatus := Channel.Next
  let Modulation := LockStatus.Next
  let ChannelID := Modulation.Next
  let Frequency := ChannelID.Next
  let Power := Frequency.Next
  let SNRMER := Power.Next
  let UnerroredCodewords := SNRMER.Next
  let CorrectableCodewords := UnerroredCodewords.Next
  let UncorrectableCodewords := CorrectableCodewords.Next
  { Channel := Channel.Text
    LockStatus := LockStatus.Text
    Modulation := Modulation.Text
    ChannelID := ChannelID.Text
    Frequency := Frequency.Text
    Power := Power.Text
    SNRMER := SNRMER.Text
    UnerroredCodewords := UnerroredCodewords.Text
    CorrectableCodewords := CorrectableCodewords.Text
    UncorrectableCodewords := UncorrectableCodewords.Text }

/-- The texts of a row in the order of the `log.Printf` of line 145. -/
def RowTexts.toList (t : RowTexts) : List String :=
  [t.Channel, t.LockStatus, t.Modulation, t.ChannelID, t.Frequency, t.Power, t.SNRMER,
    t.UnerroredCodewords, t.CorrectableCodewords, t.UncorrectableCodewords]

/-- Line 167: the string handed to `ParseFloat` for the power field. -/
def powerArg (t : RowTexts) : String :=
  TrimSpace (Replace t.Power "dBmV" "" (-1))

/-- Line 174: the string handed to `ParseFloat` for the snr/mer field. -/
def snrmerArg (t : RowTexts) : String :=
  TrimSpace (Replace t.SNRMER "dB" "" (-1))

/-- Line 181: the string handed to `ParseFloat` for the unerrored codewords. -/
def unerroredArg (t : RowTexts) : String :=
  TrimSpace t.UnerroredCodewords

/-- Line 188: the string handed to `ParseFloat` for the correctable codewords. -/
def correctableArg (t : RowTexts) : String :=
  TrimSpace t.CorrectableCodewords

/-- Line 195: the string handed to `ParseFloat` for the uncorrectable codewords. -/
def uncorrectableArg (t : RowTexts) : String :=
  TrimSpace t.UncorrectableCodewords

section Program

variable {F : Type} [One F]

/-- The pattern of lines 167-200: `v, err := strconv.ParseFloat(arg, 64)`, then a log
line if `err != nil` and `vec.WithLabelValues(Channel.Text()).Set(v)` otherwise. `upd`
stores the new gauge vector in the registry. -/
def setNumeric (ParseFloat : String → Option F) (field arg channel : String)
    (vec : Metrics F → GaugeVec F) (upd : Metrics F → GaugeVec F → Metrics F)
    (st : State F) : State F :=
  match ParseFloat arg with
  | none => { st with log := st.log ++ [.parseError field arg] }
  | some v => { st with metrics := upd st.metrics ((vec st.metrics).set [channel] v) }

/-- Lines 145-200: the row is logged, the identity gauge is set to `1.0`, and each of
the five numeric gauges is set if its text parses. -/
def project (ParseFloat : String → Option F) (t : RowTexts) (st : State F) : State F :=
  let st : State F := { st with log := st.log ++ [.row t.toList] }
  let st : State F := { st with metrics := { st.metrics with
    channelInfo := st.metrics.channelInfo.set
      [t.Channel, t.LockStatus, t.Modulation, t.ChannelID, t.Frequency] 1 } }
  let st := setNumeric ParseFloat "power"
    (powerArg t) t.Channel
    (·.power) (fun m g => { m with power := g }) st
  let st := setNumeric ParseFloat "snr/mer"
    (snrmerArg t) t.Channel
    (·.snrmer) (fun m g => { m with snrmer := g }) st
  let st := setNumeric ParseFloat "unerrored codewords"
    (unerroredArg t) t.Channel
    (·.unerroredCodewords) (fun m g => { m with unerroredCodewords := g }) st
  let st := setNumeric ParseFloat "correctable codewords"
    (correctableArg t) t.Channel
    (·.correctableCodewords) (fun m g => { m with correctableCodewords := g }) st
  setNumeric ParseFloat "uncorrectable codewords"
    (uncorrectableArg t) t.Channel
    (·.uncorrectableCodewords) (fun m g => { m with uncorrectableCodewords := g }) st

/-- The callback of `tableRows.Each` (lines 126-202) for the row `s` at index `i`. -/
def eachRow (ParseFloat : String → Option F) (i : Nat) (s : Loc) (st : State F) : State F :=
  let cells := Selection.Find [s] (tagSel "td")
  if i > 0 then
    if cells.length ≠ 10 then st
    else project ParseFloat (readCells cells) st
  else st

/-- The selector `.in-frame-table table tr`. -/
def statusRowSel : Matcher :=
  descendantSel (descendantSel (classSel "in-frame-table") (tagSel "table")) (tagSel "tr")

/-- Lines 125-202: the rows of the status page are selected and projected one after
the other. -/
def scrape (ParseFloat : String → Option F) (doc : Node) (st : State F) : State F :=
  let tableRows := docFind doc statusRowSel
  tableRows.Each (eachRow ParseFloat) st

/-! ## `getMetrics`, lines 86-123: the login -/

/-- A Go `error`, by its message. -/
abbrev Error := String

/-- An HTTP response that is not `nil`, as far as the program looks at it: what
`goquery.NewDocumentFromResponse` makes of it, the parsed page or an error. -/
structure Response where
  document : Except Error Node

/-- The result `(resp, err)` of `client.Get` or `client.PostForm`. When `err` is `nil`
the response is not; a failed request has a response only when a redirect was
refused. -/
inductive Reply where
  | ok (resp : Response)
  | fail (err : Error) (resp : Option Response)

/-- The `resp` of a reply, `none` for `nil`. -/
def Reply.resp : Reply → Option Response
  | .ok r => some r
  | .fail _ r => r

/-- A request of the client: a GET of a URL or the POST of a form (`url.Values`, here
the list of its keys with their values). -/
inductive Request where
  | Get (url : String)
  | PostForm (url : String) (data : List (String × List String))
  deriving DecidableEq, Repr

/-- The modem and the network as the client sees them: the reply to a request, given
the requests made before it in this cycle (cookies make the replies depend on them). -/
abbrev Network := List Request → Request → Reply

/-- The flags `-url`, `-user` and `-pass`. -/
structure Flags where
  baseUrl : String
  user : String
  pass : String

/-- The path of the login page. -/
def loginPath : String := "/GenieLogin.asp"
/-- The path the login form is posted to. -/
def loginAction : String := "/goform/GenieLogin"
/-- The path of the status page. -/
def statusPath : String := "/DocsisStatus.asp"

/-- The `goquery.NewDocumentFromResponse`: it starts with `if res == nil { return nil,
errors.New("Response is nil") }`; for a response that is not `nil` the result is the
one recorded in the response. -/
def NewDocumentFromResponse : Option Response → Except Error Node
  | none => .error "Response is nil"
  | some res => res.document

/-- The selector `input[name=webToken]`. -/
def webTokenSel : Matcher :=
  andSel (tagSel "input") (attrEqSel "name" "webToken")

/-- What one call of `getMetrics` did: the requests it sent, in order, the state it
left, and the error it returned (`none` for `nil`). -/
structure Outcome (F : Type) where
  requests : List Request
  state : State F
  err : Option Error

/-- Lines 106-112: the token is read from the login page (`webToken, _ :=
doc.Find("input[name=webToken]").Attr("value")`) and the login form is built. -/
def loginRequest (flags : Flags) (doc : Node) : Request :=
  let webToken := ((docFind doc webTokenSel).Attr "value").1
  Request.PostForm (flags.baseUrl ++ loginAction)
    [("webToken", [webToken]), ("loginUsername", [flags.user]),
      ("loginPassword", [flags.pass])]

/-- Lines 87-123 of `getMetrics`: the login page is fetched, the form is posted with
the token found in the page, and the status page is fetched and parsed. The result
is the list of requests sent and the page, or the error that `getMetrics` returns.
The cookie jar is created without error (`cookiejar.New` has no failing path). The
`err` of the GET of the status page is overwritten by that of
`NewDocumentFromResponse`, as in line 120. -/
def fetchStatusPage (flags : Flags) (net : Network) : List Request × Except Error Node :=
  let req1 := Request.Get (flags.baseUrl ++ loginPath)
  match net [] req1 with
  | .fail err _ => ([req1], .error err)
  | .ok resp =>
    match NewDocumentFromResponse (some resp) with
    | .error err => ([req1], .error err)
    | .ok doc =>
      let req2 := loginRequest flags doc
      match net [req1] req2 with
      | .fail err _ => ([req1, req2], .error err)
      | .ok _ =>
        let req3 := Request.Get (flags.baseUrl ++ statusPath)
        let reply := net [req1, req2] req3
        ([req1, req2, req3], NewDocumentFromResponse reply.resp)

/-- The function `getMetrics` of `main.go`: lines 87-123, then the projection of the
status table (lines 125-202) unless an error was returned before. -/
def getMetrics (flags : Flags) (net : Network) (ParseFloat : String → Option F)
    (st : State F) : Outcome F :=
  match fetchStatusPage flags net with
  | (requests, .error err) => ⟨requests, st, some err⟩
  | (requests, .ok doc) => ⟨requests, scrape ParseFloat doc st, none⟩

/-- One poll of `main` (lines 73-76 and 79-82): `getMetrics` is called and the
process panics when it returns an error; otherwise it goes on with the new state. -/
def poll (flags : Flags) (net : Network) (ParseFloat : String → Option F)
    (st : State F) : Except Error (State F) :=
  match (getMetrics flags net ParseFloat st).err with
  | some err => .error err
  | none => .ok (getMetrics flags net ParseFloat st).state

end Program

/-! ## The words of the specification

Definitions that follow the wording of the specification, to be compared with the
program. -/

/-- The ten texts that the program reads for a selected row. -/
def rowTexts (r : Loc) : RowTexts :=
  readCells (Selection.Find [r] (tagSel "td"))

/-- The surviving rows of a status page: the rows selected by
`.in-frame-table table tr`, the first selected row excluded, that contain exactly
ten `td` cells. -/
def survivingRows (doc : Node) : List Loc :=
  (docFind doc statusRowSel).tail.filter
    (fun r => (Selection.Find [r] (tagSel "td")).length = 10)

/-- The label values of the identity series of a row. -/
def RowTexts.identity (t : RowTexts) : List String :=
  [t.Channel, t.LockStatus, t.Modulation, t.ChannelID, t.Frequency]

mutual
/-- A node and the nodes below it, in document order. -/
def subtree : Node → List Node
  | .mk t d a cs => .mk t d a cs :: subtreeList cs
/-- The nodes of the subtrees of a list of siblings, in document order. -/
def subtreeList : List Node → List Node
  | [] => []
  | c :: cs => subtree c ++ subtreeList cs
end

/-- The nodes of a page, the root excluded, in document order. -/
def descendants (doc : Node) : List Node :=
  subtreeList doc.children

mutual
/-- Whether, in a subtree, only elements have children: text, comment and doctype
nodes are leaves in every tree that `html.Parse` builds. -/
def leavesOk : Node → Bool
  | .mk t _ _ cs => (t == .ElementNode || cs.isEmpty) && leavesOkList cs
/-- Whether only elements have children in the subtrees of a list of siblings. -/
def leavesOkList : List Node → Bool
  | [] => true
  | c :: cs => leavesOk c && leavesOkList cs
end

/-- A well-formed page: below the root, only elements have children. -/
def wellFormedPage (doc : Node) : Bool :=
  leavesOkList doc.children

/-- An input element named `webToken`: an `input` element with an attribute `name`
equal to `webToken`. -/
def isWebTokenInput (n : Node) : Bool :=
  n.type == .ElementNode && n.data == "input" &&
    n.attr.any (fun a => a.Key == "name" && a.Val == "webToken")

/-- The token of a login page: the `value` attribute of the first input element named
`webToken` of the page, the empty string when there is no such element or when it has
no `value` attribute. -/
def webTokenOf (doc : Node) : String :=
  match (descendants doc).find? isWebTokenInput with
  | none => ""
  | some n =>
    match n.attr.find? (fun a => a.Key == "value") with
    | none => ""
    | some a => a.Val

/-! ## A reference instance of the float parser

The theorems below hold for every `ParseFloat`. To evaluate the program on concrete
pages, `decimalParseFloat` implements the plain decimal fragment of the syntax that
`strconv.ParseFloat` accepts (an optional sign, then digits with at most one point
and at least one digit) and rejects every other string. Its value is the rational
number that the literal denotes; `strconv.ParseFloat` returns the `float64` nearest
to it. -/

/-- The value of a decimal digit (the code points 48 to 57 are `0` to `9`). -/
def digitValue (c : Char) : Option Nat :=
  if 48 ≤ c.toNat ∧ c.toNat ≤ 57 then some (c.toNat - 48) else none

/-- The scan of the mantissa: `m` is the number read so far, `k` the number of digits
read after the point (`none` before the point), `seen` whether a digit was read. The
result is the mantissa as an integer and the number of fraction digits. -/
def scanMantissa : Nat → Option Nat → Bool → List Char → Option (Nat × Nat)
  | m, k, seen, [] => if seen then some (m, k.getD 0) else none
  | m, k, seen, c :: cs =>
    if c = '.' then
      match k with
      | none => scanMantissa m (some 0) seen cs
      | some _ => none
    else
      match digitValue c with
      | none => none
      | some d => scanMantissa (10 * m + d) (k.map (· + 1)) true cs

/-- The scan of a signed decimal literal: whether it is negative, its mantissa and its
number of fraction digits. -/
def scanDecimal : List Char → Option (Bool × Nat × Nat)
  | [] => none
  | c :: cs =>
    if c = '-' then (scanMantissa 0 none false cs).map (fun mk => (true, mk))
    else if c = '+' then (scanMantissa 0 none false cs).map (fun mk => (false, mk))
    else (scanMantissa 0 none false (c :: cs)).map (fun mk => (false, mk))

/-- The reference parser: the value of a plain decimal literal. -/
def decimalParseFloat (s : String) : Option ℚ :=
  (scanDecimal s.data).map
    (fun r => (if r.1 then -1 else 1) * (r.2.1 : ℚ) / (10 : ℚ) ^ r.2.2)

/-- An element without attributes. -/
def el (tag : String) (cs : List Node) : Node := Node.element tag [] cs

/-- A cell `<td>text</td>`. -/
def td (s : String) : Node := el "td" [Node.text s]

/-- A status page whose table region holds the given rows:
`<html><head></head><body><div class="in-frame-table"><table><tbody>rows</tbody>
</table></div></body></html>`. -/
def statusPage (rows : List Node) : Node :=
  Node.document [el "html" [el "head" [], el "body"
    [Node.element "div" [⟨"class", "in-frame-table"⟩] [el "table" [el "tbody" rows]]]]]

/-- A header row of ten `th` cells. -/
def headerRow : Node :=
  el "tr" (["Channel", "Lock Status", "Modulation", "Channel ID", "Frequency", "Power",
    "SNR / MER", "Unerrored Codewords", "Correctable Codewords",
    "Uncorrectable Codewords"].map (fun s => el "th" [Node.text s]))

/-- The data row of the first scenario of the specification. -/
def sampleRow : Node :=
  el "tr" (["1", "Locked", "QAM256", "5", "549.0 MHz", "3.5 dBmV", "38.2 dB", "123456",
    "12", "0"].map td)

/-- A row of eight cells, such as a separator or summary row. -/
def shortRow : Node :=
  el "tr" (["2", "Locked", "QAM256", "6", "555.0 MHz", "3.1 dBmV", "38.0 dB", "77"].map td)

/-- A second data row, for channel 3. -/
def sampleRow3 : Node :=
  el "tr" (["3", "Locked", "QAM256", "7", "561.0 MHz", "2.9 dBmV", "37.6 dB", "123400",
    "7", "1"].map td)

/-- A row with ten `td` cells and a `th` cell between the first two of them:
`<tr><td>1</td><th>X</th><td>Locked</td>...<td>0</td></tr>`. -/
def gapRow : Node :=
  el "tr" (td "1" :: el "th" [Node.text "X"] ::
    ["Locked", "QAM256", "5", "549.0 MHz", "3.5 dBmV", "38.2 dB", "123456", "12",
      "0"].map td)

/-- A status page whose first row has ten `td` cells and where an eight-cell row
stands between two ten-cell rows. -/
def mixedPage : Node :=
  statusPage [sampleRow, sampleRow, shortRow, sampleRow3]

/-- A registry left by an earlier cycle: channel 1 was unlocked with power 2.5 and
channel 9 had power 1 and 40 uncorrectable codewords. -/
def priorState : State ℚ :=
  ⟨⟨fun k => if k = ["1", "Unlocked", "QAM64", "5", "549.0 MHz"] then some 1 else none,
    fun k => if k = ["1"] then some (5 / 2) else if k = ["9"] then some 1 else none,
    fun _ => none, fun _ => none, fun _ => none,
    fun k => if k = ["9"] then some 40 else none⟩, []⟩

/-- A login page: a form with the hidden `webToken` input (with the given `value`
attribute, if any) when `token` is given, and without it otherwise. -/
def loginPage (token : Option (Option String)) : Node :=
  Node.document [el "html" [el "head" [], el "body" [el "form"
    ((match token with
      | none => []
      | some none => [Node.element "input" [⟨"type", "hidden"⟩, ⟨"name", "webToken"⟩] []]
      | some (some v) =>
        [Node.element "input" [⟨"type", "hidden"⟩, ⟨"name", "webToken"⟩, ⟨"value", v⟩] []]) ++
      [Node.element "input" [⟨"type", "text"⟩, ⟨"name", "loginUsername"⟩] [],
        Node.element "input" [⟨"type", "password"⟩, ⟨"name", "loginPassword"⟩] []])]]]

/-- The default flags of the program. -/
def defaultFlags : Flags :=
  ⟨"http://192.168.100.1", "admin", "password"⟩

/-- A modem at the default address that serves the given login page, accepts every
login, and answers the GET of the status page with `status`. -/
def modem (login : Node) (status : Reply) : Network :=
  fun _ req =>
    match req with
    | .Get url =>
      if url = "http://192.168.100.1/DocsisStatus.asp" then status else .ok ⟨.ok login⟩
    | .PostForm _ _ => .ok ⟨.ok (Node.document [])⟩

/-- A modem that serves the given status page. -/
def modemWith (status : Node) : Network :=
  modem (loginPage (some (some "12345"))) (.ok ⟨.ok status⟩)

/-- The registry before the first cycle (no gauge exists) with an empty log. -/
def emptyState (F : Type) : State F :=
  ⟨⟨fun _ => none, fun _ => none, fun _ => none, fun _ => none, fun _ => none,
    fun _ => none⟩, []⟩


end Netgear

/-! ## The byte level

The definitions above describe the program on pages whose texts are valid UTF-8, the
texts that a Lean `String` can hold; there the label check of `WithLabelValues` always
passes. A Go `string` is a sequence of bytes, `html.Parse` hands on bytes that are not
valid UTF-8 as they are, and `WithLabelValues` panics on a label value that is not
valid UTF-8. The namespace `NetgearBytes` embeds the same lines of `main.go` over byte
strings, with that panic. The library operations are the same as above, read on
bytes. -/

namespace NetgearBytes

/-- A Go `string`: a sequence of bytes, valid UTF-8 or not. -/
abbrev GoString := List UInt8

/-- The bytes of a string literal of the source (Go source text is UTF-8). -/
def utf8 (s : String) : GoString :=
  s.data.flatMap String.utf8EncodeChar

/-- A continuation byte of UTF-8: `0x80` to `0xBF`. -/
def isCont (b : UInt8) : Bool :=
  0x80 ≤ b && b ≤ 0xBF

/-- The width of the UTF-8 encoding that a string starts with, following the table of
Go's `unicode/utf8`: 1 for an ASCII byte, 2 for `C2..DF` and a continuation byte, 3
for `E0..EF` and two continuation bytes (the first in `A0..BF` after `E0`, in `80..9F`
after `ED`), 4 for `F0..F4` and three continuation bytes (the first in `90..BF` after
`F0`, in `80..8F` after `F4`). The width is 0 for the empty string and for a string
that starts with no well-formed encoding. -/
def encodingWidth : GoString → Nat
  | [] => 0
  | b0 :: r =>
    if b0 ≤ 0x7F then 1
    else if 0xC2 ≤ b0 && b0 ≤ 0xDF then
      match r with
      | b1 :: _ => if isCont b1 then 2 else 0
      | _ => 0
    else if 0xE0 ≤ b0 && b0 ≤ 0xEF then
      match r with
      | b1 :: b2 :: _ =>
        if (if b0 = 0xE0 then 0xA0 ≤ b1 && b1 ≤ 0xBF
            else if b0 = 0xED then 0x80 ≤ b1 && b1 ≤ 0x9F
            else isCont b1) && isCont b2 then 3 else 0
      | _ => 0
    else if 0xF0 ≤ b0 && b0 ≤ 0xF4 then
      match r with
      | b1 :: b2 :: b3 :: _ =>
        if (if b0 = 0xF0 then 0x90 ≤ b1 && b1 ≤ 0xBF
            else if b0 = 0xF4 then 0x80 ≤ b1 && b1 ≤ 0x8F
            else isCont b1) && isCont b2 && isCont b3 then 4 else 0
      | _ => 0
    else 0

/-- The scan of `utf8.ValidString`: `skip` is the number of bytes of the current
encoding still to be passed over. -/
def validScan : Nat → GoString → Bool
  | _, [] => true
  | skip + 1, _ :: bs => validScan skip bs
  | 0, b :: bs =>
    match encodingWidth (b :: bs) with
    | 0 => false
    | w + 1 => validScan w bs

/-- Go `utf8.ValidString`: whether the string consists of well-formed UTF-8
encodings. -/
def ValidString (s : GoString) : Bool :=
  validScan 0 s

/-- The ASCII white space of Go: tab, line feed, vertical tab, form feed, carriage
return and space. -/
def isAsciiSpace (b : UInt8) : Bool :=
  b == 0x09 || b == 0x0A || b == 0x0B || b == 0x0C || b == 0x0D || b == 0x20

/-- Whether three bytes are the encoding of a white-space character beyond Latin-1:
U+1680 (`E1 9A 80`), U+2000 to U+200A (`E2 80 80` to `E2 80 8A`), U+2028, U+2029,
U+202F (`E2 80 A8`, `E2 80 A9`, `E2 80 AF`), U+205F (`E2 81 9F`) and U+3000
(`E3 80 80`). -/
def isSpace3 (b0 b1 b2 : UInt8) : Bool :=
  (b0 == 0xE1 && b1 == 0x9A && b2 == 0x80) ||
  (b0 == 0xE2 && b1 == 0x80 &&
    ((0x80 ≤ b2 && b2 ≤ 0x8A) || b2 == 0xA8 || b2 == 0xA9 || b2 == 0xAF)) ||
  (b0 == 0xE2 && b1 == 0x81 && b2 == 0x9F) ||
  (b0 == 0xE3 && b1 == 0x80 && b2 == 0x80)

/-- Whether two bytes are the encoding of U+0085 (`C2 85`) or U+00A0 (`C2 A0`). -/
def isSpace2 (b0 b1 : UInt8) : Bool :=
  b0 == 0xC2 && (b1 == 0x85 || b1 == 0xA0)

/-- The width of the white-space character (`unicode.IsSpace`) that a string starts
with, 0 when it starts with none: what `utf8.DecodeRuneInString` and `unicode.IsSpace`
give in `strings.TrimLeftFunc`. -/
def spaceWidth : GoString → Nat
  | [] => 0
  | b0 :: r =>
    if isAsciiSpace b0 then 1
    else
      match r with
      | [] => 0
      | b1 :: r1 =>
        if isSpace2 b0 b1 then 2
        else
          match r1 with
          | [] => 0
          | b2 :: _ => if isSpace3 b0 b1 b2 then 3 else 0

/-- The width of the white-space character that a string ends with, 0 when it ends
with none; the argument is the string reversed. It is what
`utf8.DecodeLastRuneInString` and `unicode.IsSpace` give in `strings.TrimRightFunc`:
the last character is the one whose encoding ends the string. -/
def lastSpaceWidth : GoString → Nat
  | [] => 0
  | b0 :: r =>
    if isAsciiSpace b0 then 1
    else
      match r with
      | [] => 0
      | b1 :: r1 =>
        if isSpace2 b1 b0 then 2
        else
          match r1 with
          | [] => 0
          | b2 :: _ => if isSpace3 b2 b1 b0 then 3 else 0

/-- The loop of a trim: white-space characters are removed from the front as long as
the string starts with one (`width` gives the width). -/
def trimScan (width : GoString → Nat) : Nat → GoString → GoString
  | _, [] => []
  | skip + 1, _ :: bs => trimScan width skip bs
  | 0, b :: bs =>
    match width (b :: bs) with
    | 0 => b :: bs
    | w + 1 => trimScan width w bs

/-- Go `strings.TrimSpace` on bytes: all leading and trailing white space removed. -/
def TrimSpace (s : GoString) : GoString :=
  (trimScan lastSpaceWidth 0 (trimScan spaceWidth 0 s).reverse).reverse

/-- The scan of `strings.Replace` for a non-empty `old`, on bytes (Go compares
bytes). -/
def replaceScan (old new : GoString) : Option Nat → Nat → GoString → GoString
  | _, _, [] => []
  | budget, skip + 1, _ :: bs => replaceScan old new budget skip bs
  | budget, 0, b :: bs =>
    if budget ≠ some 0 ∧ old.isPrefixOf (b :: bs) then
      new ++ replaceScan old new (budget.map (· - 1)) (old.length - 1) bs
    else
      b :: replaceScan old new budget 0 bs

/-- The case `old == ""` of `strings.Replace`: `new` is inserted at the start of the
string and after each character (a byte that starts no well-formed encoding counts as
one character), as long as the budget allows. -/
def replaceEmpty (new : GoString) : Option Nat → Nat → GoString → GoString
  | budget, _, [] => if budget = some 0 then [] else new
  | budget, skip + 1, b :: bs => b :: replaceEmpty new budget skip bs
  | budget, 0, b :: bs =>
    if budget = some 0 then b :: bs
    else new ++ b :: replaceEmpty new (budget.map (· - 1)) (encodingWidth (b :: bs) - 1) bs

/-- Go `strings.Replace(s, old, new, n)` on bytes. -/
def Replace (s old new : GoString) (n : Int) : GoString :=
  if old = new ∨ n = 0 then s
  else
    let budget : Option Nat := if n < 0 then none else some n.toNat
    if old = [] then replaceEmpty new budget 0 s
    else replaceScan old new budget 0 s

/-! ### The HTML tree and goquery, on byte strings -/

/-- An attribute of an element: `html.Attribute` (key and value). -/
structure Attribute where
  Key : GoString
  Val : GoString
  deriving DecidableEq, Repr

/-- A node of the parsed page: `html.Node` with its children in document order. -/
inductive Node where
  | mk (type : Netgear.NodeType) (data : GoString) (attr : List Attribute)
      (children : List Node)

namespace Node

/-- The `Type` field of a node. -/
def type : Node → Netgear.NodeType
  | .mk t _ _ _ => t

/-- The `Data` field of a node. -/
def data : Node → GoString
  | .mk _ d _ _ => d

/-- The `Attr` field of a node. -/
def attr : Node → List Attribute
  | .mk _ _ a _ => a

/-- The children of a node, first child first. -/
def children : Node → List Node
  | .mk _ _ _ cs => cs

/-- A text node. -/
def text (s : GoString) : Node := .mk .TextNode s [] []

/-- An element node. -/
def element (tag : String) (attrs : List Attribute) (cs : List Node) : Node :=
  .mk .ElementNode (utf8 tag) attrs cs

/-- A document node, the root of a parsed page. -/
def document (cs : List Node) : Node := .mk .DocumentNode [] [] cs

end Node

/-- A node as a Go pointer sees it: the node, its following siblings and its
ancestors (nearest first). -/
structure Loc where
  node : Node
  next : List Node
  ancestors : List Node

/-- A goquery `Selection`: located nodes in document order. -/
abbrev Selection := List Loc

/-- A compiled selector (`cascadia.Selector`). -/
abbrev Matcher := List Node → Node → Bool

/-- The type selector `tag`. -/
def tagSel (tag : String) : Matcher :=
  fun _ n => n.type == .ElementNode && n.data == utf8 tag

/-- The loop of cascadia's `matchInclude`, on bytes: the separators are space, tab,
carriage return, line feed and form feed. -/
def matchIncludeScan (val : GoString) : GoString → GoString → Bool
  | tok, [] => tok ≠ [] && tok.reverse == val
  | tok, c :: cs =>
    if c == 0x20 || c == 0x09 || c == 0x0D || c == 0x0A || c == 0x0C then
      tok.reverse == val || matchIncludeScan val [] cs
    else matchIncludeScan val (c :: tok) cs

/-- The class selector `.cls`. -/
def classSel (cls : String) : Matcher :=
  fun _ n => n.type == .ElementNode &&
    n.attr.any (fun a => a.Key == utf8 "class" && matchIncludeScan (utf8 cls) [] a.Val)

/-- The attribute selector `[key=val]`. -/
def attrEqSel (key val : String) : Matcher :=
  fun _ n => n.type == .ElementNode &&
    n.attr.any (fun a => a.Key == utf8 key && a.Val == utf8 val)

/-- A compound selector: both parts match the node. -/
def andSel (a b : Matcher) : Matcher :=
  fun anc n => a anc n && b anc n

/-- Whether some node of the ancestor chain matches `a`. -/
def anyAncestor (a : Matcher) : List Node → Bool
  | [] => false
  | p :: ps => a ps p || anyAncestor a ps

/-- The descendant combinator `a b`. -/
def descendantSel (a b : Matcher) : Matcher :=
  fun anc n => b anc n && anyAncestor a anc

mutual
/-- All matches in the subtree of a node, the node included, in document order:
cascadia `MatchAll`. -/
def matchAll (m : Matcher) (anc : List Node) : Node → List Node → List Loc
  | .mk t d a cs, sibs =>
    (if m anc (.mk t d a cs) then [⟨.mk t d a cs, sibs, anc⟩] else []) ++
      matchAllList m (.mk t d a cs :: anc) cs
/-- The matches in the subtrees of a list of siblings, in document order. -/
def matchAllList (m : Matcher) (anc : List Node) : List Node → List Loc
  | [] => []
  | c :: cs => matchAll m anc c cs ++ matchAllList m anc cs
end

/-- The loop of goquery `findWithMatcher` over the children of one node. -/
def findInChildren (m : Matcher) (anc : List Node) : List Node → List Loc
  | [] => []
  | c :: cs =>
    (if c.type == .ElementNode then matchAll m anc c cs else []) ++ findInChildren m anc cs

/-- The descendants of a located node that match `m`, in document order. -/
def Loc.find (m : Matcher) (l : Loc) : Selection :=
  findInChildren m (l.node :: l.ancestors) l.node.children

/-- The next sibling that is an element, located. -/
def nextElement (anc : List Node) : List Node → Option Loc
  | [] => none
  | c :: cs => if c.type == .ElementNode then some ⟨c, cs, anc⟩ else nextElement anc cs

mutual
/-- The text of a node: the data of the text nodes of its subtree, concatenated. -/
def nodeText : Node → GoString
  | .mk t d _ cs => (if t = .TextNode then d else []) ++ nodesText cs
/-- The text of a list of sibling nodes. -/
def nodesText : List Node → GoString
  | [] => []
  | c :: cs => nodeText c ++ nodesText cs
end

namespace Selection

/-- The goquery `Find` on a selection (of one node, in this program). -/
def Find (s : Selection) (m : Matcher) : Selection :=
  s.flatMap (Loc.find m)

/-- The goquery `First`. -/
def First (s : Selection) : Selection :=
  s.take 1

/-- The goquery `Next` (on selections of at most one node, in this program). -/
def Next (s : Selection) : Selection :=
  s.filterMap (fun l => nextElement l.ancestors l.next)

/-- The goquery `Text`. -/
def Text (s : Selection) : GoString :=
  s.foldl (fun acc l => acc ++ nodeText l.node) []

/-- The goquery `Attr`. -/
def Attr (s : Selection) (attrName : String) : GoString × Bool :=
  match s with
  | [] => ([], false)
  | l :: _ =>
    match l.node.attr.find? (fun a => a.Key == utf8 attrName) with
    | some a => (a.Val, true)
    | none => ([], false)

end Selection

/-- The goquery `doc.Find`. -/
def docFind (doc : Node) (m : Matcher) : Selection :=
  Selection.Find [⟨doc, [], []⟩] m

/-! ### The registry, with the check of the label values -/

/-- A Prometheus `GaugeVec`: the gauges that exist, by their label values. -/
abbrev GaugeVec (F : Type) := List GoString → Option F

/-- The gauge with these label values holds `v`. -/
def GaugeVec.set {F : Type} (g : GaugeVec F) (lvs : List GoString) (v : F) : GaugeVec F :=
  fun k => if k = lvs then some v else g k

/-- A gauge vector after an update that happens only when a value is there. -/
def GaugeVec.setOpt {F : Type} (g : GaugeVec F) (lvs : List GoString) :
    Option F → GaugeVec F
  | none => g
  | some v => g.set lvs v

/-- The six package-level gauge vectors of `main.go`. -/
structure Metrics (F : Type) where
  channelInfo : GaugeVec F
  power : GaugeVec F
  snrmer : GaugeVec F
  unerroredCodewords : GaugeVec F
  correctableCodewords : GaugeVec F
  uncorrectableCodewords : GaugeVec F

/-- A line written by `log.Printf`. -/
inductive LogLine where
  | row (texts : List GoString)
  | parseError (field : String) (num : GoString)
  deriving DecidableEq, Repr

/-- Whether a log line is the line of a row. -/
def LogLine.isRow : LogLine → Bool
  | .row _ => true
  | .parseError _ _ => false

/-- The mutable state of the process: the registry and the log written so far. -/
structure State (F : Type) where
  metrics : Metrics F
  log : List LogLine

/-- The panic of `WithLabelValues`: the error `label value %q is not valid UTF-8`,
with the label value it names. -/
inductive Panic where
  | invalidLabel (val : GoString)
  deriving DecidableEq, Repr

/-- The course of a piece of the program that may panic: it completes with a state,
or it panics, leaving the state it had reached. -/
inductive Run (F : Type) where
  | ok (st : State F)
  | panic (p : Panic) (st : State F)

/-- The sequence of two pieces: the second runs if the first completes. -/
def Run.bind {F : Type} (r : Run F) (f : State F → Run F) : Run F :=
  match r with
  | .ok st => f st
  | .panic p st => .panic p st

/-- The effect of `vec.WithLabelValues(lvs...).Set(v)`: `WithLabelValues` panics with
the first label value that is not valid UTF-8; otherwise the gauge holds `v`. -/
def setGauge {F : Type} (vec : Metrics F → GaugeVec F)
    (upd : Metrics F → GaugeVec F → Metrics F) (lvs : List GoString) (v : F)
    (st : State F) : Run F :=
  match lvs.find? (fun l => !ValidString l) with
  | some bad => .panic (.invalidLabel bad) st
  | none => .ok { st with metrics := upd st.metrics ((vec st.metrics).set lvs v) }

/-! ### `getMetrics` on byte strings -/

/-- The texts of the ten selections of one row. -/
structure RowTexts where
  Channel : GoString
  LockStatus : GoString
  Modulation : GoString
  ChannelID : GoString
  Frequency : GoString
  Power : GoString
  SNRMER : GoString
  UnerroredCodewords : GoString
  CorrectableCodewords : GoString
  UncorrectableCodewords : GoString
  deriving DecidableEq, Repr

/-- Lines 134-144: `Channel := cells.First()`, every further selection the `Next()` of
the one before, each read with `Text()`. -/
def readCells (cells : Selection) : RowTexts :=
  let Channel := cells.First
  let LockStatus := Channel.Next
  let Modulation := LockStatus.Next
  let ChannelID := Modulation.Next
  let Frequency := ChannelID.Next
  let Power := Frequency.Next
  let SNRMER := Power.Next
  let UnerroredCodewords := SNRMER.Next
  let CorrectableCodewords := UnerroredCodewords.Next
  let UncorrectableCodewords := CorrectableCodewords.Next
  { Channel := Channel.Text
    LockStatus := LockStatus.Text
    Modulation := Modulation.Text
    ChannelID := ChannelID.Text
    Frequency := Frequency.Text
    Power := Power.Text
    SNRMER := SNRMER.Text
    UnerroredCodewords := UnerroredCodewords.Text
    CorrectableCodewords := CorrectableCodewords.Text
    UncorrectableCodewords := UncorrectableCodewords.Text }

/-- The texts of a row in the order of the `log.Printf` of line 145. -/
def RowTexts.toList (t : RowTexts) : List GoString :=
  [t.Channel, t.LockStatus, t.Modulation, t.ChannelID, t.Frequency, t.Power, t.SNRMER,
    t.UnerroredCodewords, t.CorrectableCodewords, t.UncorrectableCodewords]

/-- The label values of the identity series of a row (lines 159-165). -/
def RowTexts.identity (t : RowTexts) : List GoString :=
  [t.Channel, t.LockStatus, t.Modulation, t.ChannelID, t.Frequency]

/-- Line 167: the string handed to `ParseFloat` for the power field. -/
def powerArg (t : RowTexts) : GoString :=
  TrimSpace (Replace t.Power (utf8 "dBmV") (utf8 "") (-1))

/-- Line 174: the string handed to `ParseFloat` for the snr/mer field. -/
def snrmerArg (t : RowTexts) : GoString :=
  TrimSpace (Replace t.SNRMER (utf8 "dB") (utf8 "") (-1))

/-- Line 181: the string handed to `ParseFloat` for the unerrored codewords. -/
def unerroredArg (t : RowTexts) : GoString :=
  TrimSpace t.UnerroredCodewords

/-- Line 188: the string handed to `ParseFloat` for the correctable codewords. -/
def correctableArg (t : RowTexts) : GoString :=
  TrimSpace t.CorrectableCodewords

/-- Line 195: the string handed to `ParseFloat` for the uncorrectable codewords. -/
def uncorrectableArg (t : RowTexts) : GoString :=
  TrimSpace t.UncorrectableCodewords

section Program

variable {F : Type} [One F]

/-- The pattern of lines 167-200: `v, err := strconv.ParseFloat(arg, 64)`, then a log
line if `err != nil` and `vec.WithLabelValues(Channel.Text()).Set(v)` otherwise. -/
def setNumeric (ParseFloat : GoString → Option F) (field : String) (arg channel : GoString)
    (vec : Metrics F → GaugeVec F) (upd : Metrics F → GaugeVec F → Metrics F)
    (st : State F) : Run F :=
  match ParseFloat arg with
  | none => .ok { st with log := st.log ++ [.parseError field arg] }
  | some v => setGauge vec upd [channel] v st

/-- Lines 145-200: the row is logged, the identity gauge is set to `1.0`, and each of
the five numeric gauges is set if its text parses; every `WithLabelValues` may
panic. -/
def project (ParseFloat : GoString → Option F) (t : RowTexts) (st : State F) : Run F :=
  (setGauge (·.channelInfo) (fun m g => { m with channelInfo := g })
    [t.Channel, t.LockStatus, t.Modulation, t.ChannelID, t.Frequency] 1
    { st with log := st.log ++ [.row t.toList] }).bind fun st =>
  (setNumeric ParseFloat "power" (powerArg t) t.Channel
    (·.power) (fun m g => { m with power := g }) st).bind fun st =>
  (setNumeric ParseFloat "snr/mer" (snrmerArg t) t.Channel
    (·.snrmer) (fun m g => { m with snrmer := g }) st).bind fun st =>
  (setNumeric ParseFloat "unerrored codewords" (unerroredArg t) t.Channel
    (·.unerroredCodewords) (fun m g => { m with unerroredCodewords := g }) st).bind fun st =>
  (setNumeric ParseFloat "correctable codewords" (correctableArg t) t.Channel
    (·.correctableCodewords) (fun m g => { m with correctableCodewords := g }) st).bind
      fun st =>
  setNumeric ParseFloat "uncorrectable codewords" (uncorrectableArg t) t.Channel
    (·.uncorrectableCodewords) (fun m g => { m with uncorrectableCodewords := g }) st

/-- The callback of `tableRows.Each` (lines 126-202) for the row `s` at index `i`. -/
def eachRow (ParseFloat : GoString → Option F) (i : Nat) (s : Loc) (st : State F) : Run F :=
  let cells := Selection.Find [s] (tagSel "td")
  if i > 0 then
    if cells.length ≠ 10 then .ok st
    else project ParseFloat (readCells cells) st
  else .ok st

/-- The loop of goquery `Each`: the callback is applied to every node with its index;
a panic of the callback ends the loop. -/
def eachFrom (f : Nat → Loc → State F → Run F) : Nat → Selection → State F → Run F
  | _, [], st => .ok st
  | i, l :: ls, st => (f i l st).bind (eachFrom f (i + 1) ls)

/-- The selector `.in-frame-table table tr`. -/
def statusRowSel : Matcher :=
  descendantSel (descendantSel (classSel "in-frame-table") (tagSel "table")) (tagSel "tr")

/-- Lines 125-202: the rows of the status page are selected and projected one after
the other. -/
def scrape (ParseFloat : GoString → Option F) (doc : Node) (st : State F) : Run F :=
  let tableRows := docFind doc statusRowSel
  eachFrom (eachRow ParseFloat) 0 tableRows st

/-- An HTTP response that is not `nil`: what `goquery.NewDocumentFromResponse` makes
of it, the parsed page or an error. -/
structure Response where
  document : Except Netgear.Error Node

/-- The result `(resp, err)` of `client.Get` or `client.PostForm`. -/
inductive Reply where
  | ok (resp : Response)
  | fail (err : Netgear.Error) (resp : Option Response)

/-- The `resp` of a reply, `none` for `nil`. -/
def Reply.resp : Reply → Option Response
  | .ok r => some r
  | .fail _ r => r

/-- A request of the client: a GET of a URL or the POST of a form. -/
inductive Request where
  | Get (url : GoString)
  | PostForm (url : GoString) (data : List (GoString × List GoString))
  deriving DecidableEq, Repr

/-- The modem and the network as the client sees them. -/
abbrev Network := List Request → Request → Reply

/-- The flags `-url`, `-user` and `-pass`. -/
structure Flags where
  baseUrl : GoString
  user : GoString
  pass : GoString

/-- The `goquery.NewDocumentFromResponse`: an error for a `nil` response. -/
def NewDocumentFromResponse : Option Response → Except Netgear.Error Node
  | none => .error "Response is nil"
  | some res => res.document

/-- The selector `input[name=webToken]`. -/
def webTokenSel : Matcher :=
  andSel (tagSel "input") (attrEqSel "name" "webToken")

/-- Lines 106-112: the token is read from the login page and the form is built. -/
def loginRequest (flags : Flags) (doc : Node) : Request :=
  let webToken := ((docFind doc webTokenSel).Attr "value").1
  Request.PostForm (flags.baseUrl ++ utf8 Netgear.loginAction)
    [(utf8 "webToken", [webToken]), (utf8 "loginUsername", [flags.user]),
      (utf8 "loginPassword", [flags.pass])]

/-- Lines 87-123 of `getMetrics`: the requests sent and the status page, or the error
that `getMetrics` returns. -/
def fetchStatusPage (flags : Flags) (net : Network) :
    List Request × Except Netgear.Error Node :=
  let req1 := Request.Get (flags.baseUrl ++ utf8 Netgear.loginPath)
  match net [] req1 with
  | .fail err _ => ([req1], .error err)
  | .ok resp =>
    match NewDocumentFromResponse (some resp) with
    | .error err => ([req1], .error err)
    | .ok doc =>
      let req2 := loginRequest flags doc
      match net [req1] req2 with
      | .fail err _ => ([req1, req2], .error err)
      | .ok _ =>
        let req3 := Request.Get (flags.baseUrl ++ utf8 Netgear.statusPath)
        let reply := net [req1, req2] req3
        ([req1, req2, req3], NewDocumentFromResponse reply.resp)

/-- How a call of `getMetrics` ends: it returns an error (`none` for `nil`), or it
panics and does not return. -/
inductive Ending where
  | returned (err : Option Netgear.Error)
  | panicked (p : Panic)
  deriving DecidableEq, Repr

/-- What one call of `getMetrics` did: the requests it sent, the state it left, and
how it ended. -/
structure Outcome (F : Type) where
  requests : List Request
  state : State F
  ending : Ending

/-- The function `getMetrics` of `main.go`: lines 87-123, then the projection of the
status table (lines 125-202) unless an error was returned before. -/
def getMetrics (flags : Flags) (net : Network) (ParseFloat : GoString → Option F)
    (st : State F) : Outcome F :=
  match fetchStatusPage flags net with
  | (requests, .error err) => ⟨requests, st, .returned (some err)⟩
  | (requests, .ok doc) =>
    match scrape ParseFloat doc st with
    | .ok st' => ⟨requests, st', .returned none⟩
    | .panic p st' => ⟨requests, st', .panicked p⟩

end Program

/-! ### The words of the specification, on byte strings -/

/-- The ten texts that the program reads for a selected row. -/
def rowTexts (r : Loc) : RowTexts :=
  readCells (Selection.Find [r] (tagSel "td"))

/-- The surviving rows of a status page: the rows selected by
`.in-frame-table table tr`, the first selected row excluded, that contain exactly
ten `td` cells. -/
def survivingRows (doc : Node) : List Loc :=
  (docFind doc statusRowSel).tail.filter
    (fun r => (Selection.Find [r] (tagSel "td")).length = 10)

/-- Whether the five label texts read for a row are valid UTF-8. -/
def validLabels (t : RowTexts) : Bool :=
  t.identity.all ValidString

/-- The log line of a numeric field: the report of the field when its text does not
parse, nothing when it does. -/
def parseErrorLine {F : Type} (ParseFloat : GoString → Option F) (field : String)
    (arg : GoString) : List LogLine :=
  match ParseFloat arg with
  | none => [.parseError field arg]
  | some _ => []

/-- The state after a row was projected without panic: the registry with the identity
gauge set and each numeric gauge set when its text parses, and the log with the line
of the row and then the reports of the numeric fields that did not parse. -/
def projected {F : Type} [One F] (ParseFloat : GoString → Option F) (t : RowTexts)
    (st : State F) : State F :=
  { metrics :=
      { channelInfo := st.metrics.channelInfo.set t.identity 1
        power := st.metrics.power.setOpt [t.Channel] (ParseFloat (powerArg t))
        snrmer := st.metrics.snrmer.setOpt [t.Channel] (ParseFloat (snrmerArg t))
        unerroredCodewords := st.metrics.unerroredCodewords.setOpt [t.Channel]
          (ParseFloat (unerroredArg t))
        correctableCodewords := st.metrics.correctableCodewords.setOpt [t.Channel]
          (ParseFloat (correctableArg t))
        uncorrectableCodewords := st.metrics.uncorrectableCodewords.setOpt [t.Channel]
          (ParseFloat (uncorrectableArg t)) }
    log := st.log ++ [.row t.toList] ++
      parseErrorLine ParseFloat "power" (powerArg t) ++
      parseErrorLine ParseFloat "snr/mer" (snrmerArg t) ++
      parseErrorLine ParseFloat "unerrored codewords" (unerroredArg t) ++
      parseErrorLine ParseFloat "correctable codewords" (correctableArg t) ++
      parseErrorLine ParseFloat "uncorrectable codewords" (uncorrectableArg t) }

/-! ### Sample pages on byte strings -/

/-- The reference parser on bytes: the value of a plain decimal literal in ASCII. -/
def decimalParseFloat (s : GoString) : Option ℚ :=
  (Netgear.scanDecimal (s.map (fun b => Char.ofNat b.toNat))).map
    (fun r => (if r.1 then -1 else 1) * (r.2.1 : ℚ) / (10 : ℚ) ^ r.2.2)

/-- An element without attributes. -/
def el (tag : String) (cs : List Node) : Node := Node.element tag [] cs

/-- A cell `<td>text</td>` with the given bytes as text. -/
def tdBytes (s : GoString) : Node := el "td" [Node.text s]

/-- A cell `<td>text</td>`. -/
def td (s : String) : Node := tdBytes (utf8 s)

/-- A status page whose table region holds the given rows:
`<html><head></head><body><div class="in-frame-table"><table><tbody>rows</tbody>
</table></div></body></html>`. -/
def statusPage (rows : List Node) : Node :=
  Node.document [el "html" [el "head" [], el "body"
    [Node.element "div" [⟨utf8 "class", utf8 "in-frame-table"⟩]
      [el "table" [el "tbody" rows]]]]]

/-- A header row of ten `th` cells. -/
def headerRow : Node :=
  el "tr" (["Channel", "Lock Status", "Modulation", "Channel ID", "Frequency", "Power",
    "SNR / MER", "Unerrored Codewords", "Correctable Codewords",
    "Uncorrectable Codewords"].map (fun s => el "th" [Node.text (utf8 s)]))

/-- The data row of the first scenario of the specification. -/
def sampleRow : Node :=
  el "tr" (["1", "Locked", "QAM256", "5", "549.0 MHz", "3.5 dBmV", "38.2 dB", "123456",
    "12", "0"].map td)

/-- A row of eight cells. -/
def shortRow : Node :=
  el "tr" (["2", "Locked", "QAM256", "6", "555.0 MHz", "3.1 dBmV", "38.0 dB", "77"].map td)

/-- A second data row, for channel 3. -/
def sampleRow3 : Node :=
  el "tr" (["3", "Locked", "QAM256", "7", "561.0 MHz", "2.9 dBmV", "37.6 dB", "123400",
    "7", "1"].map td)

/-- A data row whose power text is `N/A`. -/
def naRow : Node :=
  el "tr" (["1", "Locked", "QAM256", "5", "549.0 MHz", "N/A", "38.2 dB", "123456", "12",
    "0"].map td)

/-- A data row of ten cells whose channel text is the single byte `0xFF`, which is not
valid UTF-8, and whose power text is `N/A`:
`<tr><td>\xff</td><td>Locked</td>...<td>N/A</td>...<td>0</td></tr>`. -/
def badRow : Node :=
  el "tr" (tdBytes [0xFF] :: ["Locked", "QAM256", "5", "549.0 MHz", "N/A", "38.2 dB",
    "123456", "12", "0"].map td)

/-- A status page whose first row has ten `td` cells and where an eight-cell row
stands between two ten-cell rows. -/
def mixedPage : Node :=
  statusPage [sampleRow, sampleRow, shortRow, sampleRow3]

/-- A status page with a header row and two ten-cell rows, the second of which has a
channel text that is not valid UTF-8. -/
def badPage : Node :=
  statusPage [headerRow, sampleRow, badRow]

/-- The registry before the first cycle with an empty log. -/
def emptyState (F : Type) : State F :=
  ⟨⟨fun _ => none, fun _ => none, fun _ => none, fun _ => none, fun _ => none,
    fun _ => none⟩, []⟩

/-- A registry left by an earlier cycle: channel 1 had power 2.5. -/
def priorState : State ℚ :=
  ⟨⟨fun _ => none, fun k => if k = [utf8 "1"] then some (5 / 2) else none,
    fun _ => none, fun _ => none, fun _ => none, fun _ => none⟩, []⟩

/-- The default flags of the program. -/
def defaultFlags : Flags :=
  ⟨utf8 "http://192.168.100.1", utf8 "admin", utf8 "password"⟩

/-- A modem at the default address that serves a login page with a token, accepts
every login, and serves the given status page. -/
def modemWith (status : Node) : Network :=
  fun _ req =>
    match req with
    | .Get url =>
      if url = utf8 "http://192.168.100.1/DocsisStatus.asp" then .ok ⟨.ok status⟩
      else .ok ⟨.ok (Node.document [el "html" [el "head" [], el "body" [el "form"
        [Node.element "input" [⟨utf8 "name", utf8 "webToken"⟩,
          ⟨utf8 "value", utf8 "12345"⟩] []]]]])⟩
    | .PostForm _ _ => .ok ⟨.ok (Node.document [])⟩

end NetgearBytes

namespace Netgear

/-! ## Lemmas on `strings.Replace` and `strings.TrimSpace` -/

theorem replaceScan_skip (old new : List Char) (b : Option Nat) (k : Nat) (s : List Char) :
    replaceScan old new b k s = replaceScan old new b 0 (s.drop k) := by
  induction k generalizing s with
  | zero => simp
  | succ k ih =>
    cases s with
    | nil => simp [replaceScan]
    | cons c cs => simp [replaceScan, ih cs]

/-- If `old` does not occur before position `a.length` in `a ++ old ++ r`, the scan
copies `a`, replaces that occurrence and goes on with `r`. -/
theorem replaceScan_first (old new a r : List Char) (hold : old ≠ [])
    (h : ∀ k < a.length, ¬ old <+: (a ++ old ++ r).drop k) :
    replaceScan old new none 0 (a ++ old ++ r) = a ++ new ++ replaceScan old new none 0 r := by
  induction a with
  | nil =>
    cases old with
    | nil => exact absurd rfl hold
    | cons d rest =>
      have hp : (d :: rest).isPrefixOf (d :: (rest ++ r)) = true := by
        rw [List.isPrefixOf_iff_prefix]; exact ⟨r, by simp⟩
      simp only [List.nil_append, List.cons_append, replaceScan, hp]
      rw [replaceScan_skip]
      simp
  | cons x a ih =>
    have h0 : ¬ old <+: (x :: a ++ old ++ r) := by simpa using h 0 (by simp)
    have hp : old.isPrefixOf (x :: (a ++ old ++ r)) = false := by
      rw [← Bool.not_eq_true, List.isPrefixOf_iff_prefix]; simpa using h0
    have ih' := ih (fun k hk => by simpa using h (k + 1) (by simpa using hk))
    simp only [List.cons_append, List.append_assoc] at hp ih' ⊢
    simp [replaceScan, hp, ih']

/-- Where `old` does not occur, nothing is replaced. -/
theorem replaceScan_noOcc (old new s : List Char) (h : ¬ old <:+: s) :
    replaceScan old new none 0 s = s := by
  induction s with
  | nil => simp [replaceScan]
  | cons c cs ih =>
    rw [List.infix_cons_iff, not_or] at h
    have hp : old.isPrefixOf (c :: cs) = false := by
      rw [← Bool.not_eq_true, List.isPrefixOf_iff_prefix]; exact h.1
    simp [replaceScan, hp, ih h.2]

/-- A pattern whose first character does not occur again in it cannot overlap an
occurrence of itself: after a text `a` without occurrence, the first occurrence in
`a ++ old ++ r` is the one written. -/
theorem first_occurrence (d : Char) (rest a r : List Char) (hd : d ∉ rest)
    (ha : ¬ (d :: rest) <:+: a) :
    ∀ k < a.length, ¬ (d :: rest) <+: (a ++ (d :: rest) ++ r).drop k := by
  intro k hk hpre
  rw [List.append_assoc, List.drop_append_of_le_length (Nat.le_of_lt hk)] at hpre
  have hsuf : a.drop k <:+: a := (List.drop_suffix k a).isInfix
  rcases List.prefix_or_prefix_of_prefix hpre (List.prefix_append (a.drop k) _) with h1 | h1
  · exact ha (h1.isInfix.trans hsuf)
  · obtain ⟨t, ht⟩ := h1
    obtain ⟨u, hu⟩ := hpre
    cases hak : a.drop k with
    | nil =>
      have := congrArg List.length hak
      simp at this
      omega
    | cons x a' =>
      rw [hak] at ht hu
      cases t with
      | nil =>
        apply ha
        rw [List.append_nil] at ht
        rw [← ht, ← hak]
        exact hsuf
      | cons y t' =>
        rw [← ht] at hu
        simp only [List.cons_append, List.append_assoc, List.cons.injEq, true_and,
          List.append_cancel_left_eq] at hu
        simp only [List.cons_append, List.cons.injEq] at ht
        apply hd
        have hy : y = d := hu.1.trans ht.1
        rw [← ht.2, hy]
        simp

/-- A text without the first character of the pattern, followed by a text without
occurrence, has no occurrence. -/
theorem noOcc_append (d : Char) (rest w f : List Char) (hw : d ∉ w)
    (hf : ¬ (d :: rest) <:+: f) : ¬ (d :: rest) <:+: w ++ f := by
  induction w with
  | nil => simpa using hf
  | cons x w ih =>
    rw [List.cons_append, List.infix_cons_iff, not_or]
    refine ⟨?_, ih (fun h => hw (List.mem_cons_of_mem _ h))⟩
    rintro ⟨u, hu⟩
    simp only [List.cons_append, List.cons.injEq] at hu
    exact hw (by simp [hu.1])

/-- A text without the first character of the pattern has no occurrence. -/
theorem noOcc_of_not_mem (d : Char) (rest w : List Char) (hw : d ∉ w) :
    ¬ (d :: rest) <:+: w := by
  simpa using noOcc_append d rest w [] hw (by simp)

/-- The data of `Replace` with `n = -1` and a non-empty `old` different from `new`. -/
theorem Replace_data (s old new : String) (h1 : old ≠ new) (h2 : old.data ≠ []) :
    (Replace s old new (-1)).data = replaceScan old.data new.data none 0 s.data := by
  simp [Replace, h1, h2]

/-- White space at both ends does not change the result of `TrimSpace`. -/
theorem TrimSpace_pad (w1 f w2 : List Char) (h1 : ∀ c ∈ w1, IsSpace c = true)
    (h2 : ∀ c ∈ w2, IsSpace c = true) :
    TrimSpace ⟨w1 ++ f ++ w2⟩ = TrimSpace ⟨f⟩ := by
  have hl : ∀ x : List Char, (w1 ++ x).dropWhile IsSpace = x.dropWhile IsSpace := by
    intro x
    induction w1 with
    | nil => rfl
    | cons c w ih =>
      have hc := h1 c (by simp)
      simp only [List.cons_append, List.dropWhile_cons, hc, if_true]
      exact ih (fun c hc => h1 c (List.mem_cons_of_mem _ hc))
  have hr : ∀ x : List Char, (x ++ w2).rdropWhile IsSpace = x.rdropWhile IsSpace := by
    intro x
    induction w2 using List.reverseRecOn with
    | nil => simp
    | append_singleton w c ih =>
      have hc := h2 c (by simp)
      rw [← List.append_assoc, List.rdropWhile_concat_pos _ _ _ hc]
      exact ih (fun c hc => h2 c (by simp [hc]))
  have hd : ∀ x : List Char, (x ++ w2).dropWhile IsSpace = x.dropWhile IsSpace ++ w2 ∨
      (x.dropWhile IsSpace = [] ∧ (x ++ w2).dropWhile IsSpace = []) := by
    intro x
    induction x with
    | nil =>
      right
      refine ⟨rfl, ?_⟩
      simpa [List.dropWhile_eq_nil_iff] using h2
    | cons c x ih =>
      by_cases hc : IsSpace c = true
      · simpa [List.dropWhile_cons, hc] using ih
      · left; simp [List.dropWhile_cons, hc]
  simp only [TrimSpace, List.append_assoc, hl]
  congr 1
  rcases hd f with h | ⟨h, h'⟩
  · rw [h, hr]
  · rw [h, h']

/-- A text that neither starts nor ends with white space is left as it is. -/
theorem TrimSpace_self (f : List Char) (hh : ∀ c, f.head? = some c → IsSpace c = false)
    (hl : ∀ c, f.getLast? = some c → IsSpace c = false) : TrimSpace ⟨f⟩ = ⟨f⟩ := by
  have e1 : f.dropWhile IsSpace = f := by
    cases f with
    | nil => rfl
    | cons c cs => simp [List.dropWhile_cons, hh c rfl]
  simp only [TrimSpace, e1]
  congr 1
  rw [List.rdropWhile_eq_self_iff]
  intro hne
  have := hl (f.getLast hne) (List.getLast?_eq_getLast _ hne)
  simp [this]

/-! ## The projection of one row -/

/-- One numeric field: the gauge vector is updated when the text parses, a log line
is written when it does not. -/
theorem setNumeric_eq {F : Type} (ParseFloat : String → Option F) (field arg channel : String)
    (vec : Metrics F → GaugeVec F) (upd : Metrics F → GaugeVec F → Metrics F)
    (hupd : ∀ m, upd m (vec m) = m) (st : State F) :
    setNumeric ParseFloat field arg channel vec upd st =
      { metrics := upd st.metrics ((vec st.metrics).setOpt [channel] (ParseFloat arg))
        log := st.log ++ (match ParseFloat arg with
          | none => [LogLine.parseError field arg]
          | some _ => []) } := by
  unfold setNumeric
  cases ParseFloat arg with
  | none => simp [GaugeVec.setOpt, hupd]
  | some v => simp [GaugeVec.setOpt]

section ProjectLemmas

variable {F : Type} [One F]

/-- The registry after the projection of a row: the identity gauge is set, each
numeric gauge is set when its text parses. -/
theorem project_metrics (ParseFloat : String → Option F) (t : RowTexts) (st : State F) :
    (project ParseFloat t st).metrics =
      { channelInfo := st.metrics.channelInfo.set
          [t.Channel, t.LockStatus, t.Modulation, t.ChannelID, t.Frequency] 1
        power := st.metrics.power.setOpt [t.Channel]
          (ParseFloat (powerArg t))
        snrmer := st.metrics.snrmer.setOpt [t.Channel]
          (ParseFloat (snrmerArg t))
        unerroredCodewords := st.metrics.unerroredCodewords.setOpt [t.Channel]
          (ParseFloat (unerroredArg t))
        correctableCodewords := st.metrics.correctableCodewords.setOpt [t.Channel]
          (ParseFloat (correctableArg t))
        uncorrectableCodewords := st.metrics.uncorrectableCodewords.setOpt [t.Channel]
          (ParseFloat (uncorrectableArg t)) } := by
  simp only [project]
  rw [setNumeric_eq ParseFloat _ _ _ (·.power) (fun m g => { m with power := g })
      (fun _ => rfl),
    setNumeric_eq ParseFloat _ _ _ (·.snrmer) (fun m g => { m with snrmer := g })
      (fun _ => rfl),
    setNumeric_eq ParseFloat _ _ _ (·.unerroredCodewords)
      (fun m g => { m with unerroredCodewords := g }) (fun _ => rfl),
    setNumeric_eq ParseFloat _ _ _ (·.correctableCodewords)
      (fun m g => { m with correctableCodewords := g }) (fun _ => rfl),
    setNumeric_eq ParseFloat _ _ _ (·.uncorrectableCodewords)
      (fun m g => { m with uncorrectableCodewords := g }) (fun _ => rfl)]

end ProjectLemmas

/-! ## The unit suffix of the power field -/

/-- A text without occurrence, followed by a text without the last character of the
pattern, has no occurrence. -/
theorem noOcc_append_right (e : Char) (init f w : List Char) (hw : e ∉ w)
    (hf : ¬ (init ++ [e]) <:+: f) : ¬ (init ++ [e]) <:+: f ++ w := by
  intro h
  rw [← List.reverse_infix] at h
  simp only [List.reverse_append, List.reverse_cons, List.reverse_nil, List.nil_append,
    List.singleton_append] at h
  refine noOcc_append e init.reverse w.reverse f.reverse (by simpa using hw) ?_ h
  intro h'
  apply hf
  rw [← List.reverse_infix]
  simpa using h'

/-- The string handed to the float parser for a text `w1 ++ f ++ w ++ unit ++ w2`: the
unit is removed and the white space `w1`, `w` and `w2` is trimmed, which leaves `f`.
The unit starts with a character that does not occur again in it, and neither its
first nor its last character is white space. -/
theorem unitArg_padded (unit : String) (d e : Char) (rest init : List Char)
    (hu1 : unit.data = d :: rest) (hu2 : unit.data = init ++ [e]) (hd : d ∉ rest)
    (hds : IsSpace d = false) (hes : IsSpace e = false) (w1 f w w2 : String)
    (hw1 : ∀ c ∈ w1.data, IsSpace c = true) (hw : ∀ c ∈ w.data, IsSpace c = true)
    (hw2 : ∀ c ∈ w2.data, IsSpace c = true)
    (hhead : ∀ c, f.data.head? = some c → IsSpace c = false)
    (hlast : ∀ c, f.data.getLast? = some c → IsSpace c = false)
    (hunit : ¬ unit.data <:+: f.data) :
    TrimSpace (Replace (w1 ++ f ++ w ++ unit ++ w2) unit "" (-1)) = f := by
  have hnot : ∀ (x : Char) (l : List Char), IsSpace x = false →
      (∀ c ∈ l, IsSpace c = true) → x ∉ l := by
    intro x l hx hl hmem
    rw [hl x hmem] at hx
    exact Bool.noConfusion hx
  have hfw : ¬ (d :: rest) <:+: f.data ++ w.data := by
    rw [← hu1, hu2]
    exact noOcc_append_right e init f.data w.data (hnot e _ hes hw) (by rw [← hu2]; exact hunit)
  have hocc := first_occurrence d rest (w1.data ++ (f.data ++ w.data)) w2.data hd
    (noOcc_append d rest w1.data _ (hnot d _ hds hw1) hfw)
  have hne : unit ≠ "" := by
    intro h
    rw [h] at hu1
    exact List.noConfusion hu1
  have hrep : (Replace (w1 ++ f ++ w ++ unit ++ w2) unit "" (-1)).data =
      w1.data ++ f.data ++ (w.data ++ w2.data) := by
    rw [Replace_data _ _ _ hne (by rw [hu1]; simp)]
    have e1 : (w1 ++ f ++ w ++ unit ++ w2).data =
        (w1.data ++ (f.data ++ w.data)) ++ (d :: rest) ++ w2.data := by
      simp [String.data_append, hu1]
    rw [e1, hu1]
    show replaceScan (d :: rest) [] none 0 _ = _
    rw [replaceScan_first _ _ _ _ (by simp) hocc,
      replaceScan_noOcc _ _ _ (noOcc_of_not_mem d _ w2.data (hnot d _ hds hw2))]
    simp
  have e2 : Replace (w1 ++ f ++ w ++ unit ++ w2) unit "" (-1) =
      ⟨w1.data ++ f.data ++ (w.data ++ w2.data)⟩ := by
    rw [← hrep]
  rw [e2, TrimSpace_pad _ _ _ hw1 (by
    intro c hc
    rcases List.mem_append.mp hc with h | h
    · exact hw c h
    · exact hw2 c h), TrimSpace_self _ hhead hlast]

/-- The text handed to the float parser for a power text `w1 ++ f ++ "dBmV" ++ w2`. -/
theorem powerArg_padded (w1 f w2 : String)
    (hw1 : ∀ c ∈ w1.data, IsSpace c = true) (hw2 : ∀ c ∈ w2.data, IsSpace c = true)
    (hhead : ∀ c, f.data.head? = some c → IsSpace c = false)
    (hlast : ∀ c, f.data.getLast? = some c → IsSpace c = false)
    (hunit : ¬ "dBmV".data <:+: f.data) :
    TrimSpace (Replace (w1 ++ f ++ "dBmV" ++ w2) "dBmV" "" (-1)) = f := by
  have h := unitArg_padded "dBmV" 'd' 'V' ['B', 'm', 'V'] ['d', 'B', 'm'] rfl rfl (by decide)
    (by decide) (by decide) w1 f "" w2 hw1 (by simp) hw2 hhead hlast hunit
  simpa using h

/-- C3. For every text `f` that neither starts nor ends with white space and does
not contain `dBmV`, and all white-space strings `w1`, `w2`: the string that the power
field `w1 ++ f ++ "dBmV" ++ w2` hands to the float parser, after the unit is removed
and the result trimmed, is exactly `f`; so the projection of a row with this power
text updates the power gauge of the row's channel with the result of parsing `f`
alone: it is set to the value of `f` when `f` parses. -/
theorem power_field_parses_literal {F : Type} [One F] (ParseFloat : String → Option F)
    (w1 f w2 : String)
    (hw1 : ∀ c ∈ w1.data, IsSpace c = true) (hw2 : ∀ c ∈ w2.data, IsSpace c = true)
    (hhead : ∀ c, f.data.head? = some c → IsSpace c = false)
    (hlast : ∀ c, f.data.getLast? = some c → IsSpace c = false)
    (hunit : ¬ "dBmV".data <:+: f.data) :
    TrimSpace (Replace (w1 ++ f ++ "dBmV" ++ w2) "dBmV" "" (-1)) = f ∧
    ∀ (t : RowTexts) (st : State F), t.Power = w1 ++ f ++ "dBmV" ++ w2 →
      (project ParseFloat t st).metrics.power =
          st.metrics.power.setOpt [t.Channel] (ParseFloat f) ∧
        ∀ v, ParseFloat f = some v →
          (project ParseFloat t st).metrics.power [t.Channel] = some v := by
  have h := powerArg_padded w1 f w2 hw1 hw2 hhead hlast hunit
  refine ⟨h, ?_⟩
  intro t st ht
  have e : (project ParseFloat t st).metrics.power =
      st.metrics.power.setOpt [t.Channel] (ParseFloat f) := by
    rw [project_metrics]
    simp only [powerArg, ht, h]
  refine ⟨e, ?_⟩
  intro v hv
  rw [e, hv]
  simp [GaugeVec.setOpt, GaugeVec.set]

/-! ## The loop over the rows -/

section ScrapeLemmas

variable {F : Type} [One F]

/-- From index 1 on, the loop projects the rows that have ten cells. -/
theorem eachFrom_eachRow (ParseFloat : String → Option F) (rows : List Loc) (i : Nat)
    (hi : 0 < i) (st : State F) :
    Selection.eachFrom (eachRow ParseFloat) i rows st =
      (rows.filter (fun r => (Selection.Find [r] (tagSel "td")).length = 10)).foldl
        (fun st r => project ParseFloat (rowTexts r) st) st := by
  induction rows generalizing i st with
  | nil => rfl
  | cons r rows ih =>
    rw [Selection.eachFrom, ih (i + 1) (Nat.succ_pos i)]
    by_cases h : (Selection.Find [r] (tagSel "td")).length = 10
    · simp [eachRow, hi, h, rowTexts]
    · simp [eachRow, hi, h]

/-- The projection of a status page is the projection of its surviving rows, in
document order. -/
theorem scrape_eq_foldl (ParseFloat : String → Option F) (doc : Node) (st : State F) :
    scrape ParseFloat doc st =
      (survivingRows doc).foldl (fun st r => project ParseFloat (rowTexts r) st) st := by
  unfold scrape survivingRows Selection.Each
  cases docFind doc statusRowSel with
  | nil => rfl
  | cons h rows =>
    rw [Selection.eachFrom, eachFrom_eachRow _ _ 1 Nat.one_pos]
    simp [eachRow]

/-- When the status page is fetched, `getMetrics` projects it and returns no error. -/
theorem getMetrics_ok (flags : Flags) (net : Network) (ParseFloat : String → Option F)
    (st : State F) (doc : Node) (h : (fetchStatusPage flags net).2 = .ok doc) :
    getMetrics flags net ParseFloat st =
      ⟨(fetchStatusPage flags net).1, scrape ParseFloat doc st, none⟩ := by
  unfold getMetrics
  generalize fetchStatusPage flags net = r at h
  obtain ⟨reqs, res⟩ := r
  simp only at h
  subst h
  rfl

end ScrapeLemmas

/-! ## The reference parser on concrete literals -/

/-- The value of the reference parser from the scan of the literal. -/
theorem decimalParseFloat_of_scan (s : String) (neg : Bool) (m k : Nat) (q : ℚ)
    (h : scanDecimal s.data = some (neg, m, k))
    (hq : (if neg then -1 else 1) * (m : ℚ) / (10 : ℚ) ^ k = q) :
    decimalParseFloat s = some q := by
  simp only [decimalParseFloat, h, Option.map_some']
  rw [← hq]

/-- C2, evaluated at a row whose ten `td` cells are not adjacent siblings: the row
`gapRow` survives (it has ten `td` cells, with the texts listed first), but the
fields that the program reads follow the sibling chain of the first cell: the lock
status is the text of the `th` cell, every later field is shifted by one cell and the
tenth `td` cell is never read. The identity series that is set carries the shifted
labels, and the one of the ten `td` cells is absent. -/
theorem sibling_walk_misreads_gap_row :
    (survivingRows (statusPage [headerRow, gapRow])).map
        (fun r => (Selection.Find [r] (tagSel "td")).map (fun l => nodeText l.node)) =
      [["1", "Locked", "QAM256", "5", "549.0 MHz", "3.5 dBmV", "38.2 dB", "123456", "12",
        "0"]] ∧
    (survivingRows (statusPage [headerRow, gapRow])).map (fun r => (rowTexts r).toList) =
      [["1", "X", "Locked", "QAM256", "5", "549.0 MHz", "3.5 dBmV", "38.2 dB", "123456",
        "12"]] ∧
    (scrape decimalParseFloat (statusPage [headerRow, gapRow])
      (emptyState ℚ)).metrics.channelInfo ["1", "X", "Locked", "QAM256", "5"] = some 1 ∧
    (scrape decimalParseFloat (statusPage [headerRow, gapRow])
      (emptyState ℚ)).metrics.channelInfo ["1", "Locked", "QAM256", "5", "549.0 MHz"] =
        none ∧
    (scrape decimalParseFloat (statusPage [headerRow, gapRow])
      (emptyState ℚ)).metrics.power ["1"] = none := by
  refine ⟨by decide, by decide, rfl, rfl, rfl⟩

/-- Witness of C3: the power text `" 3.5dBmV "` hands `"3.5"` to the parser and the
power gauge of channel 1 is set to 3.5. -/
theorem power_field_parses_literal_witness :
    TrimSpace (Replace (" " ++ "3.5" ++ "dBmV" ++ " ") "dBmV" "" (-1)) = "3.5" ∧
    (project decimalParseFloat
      ⟨"1", "Locked", "QAM256", "5", "549.0 MHz", " " ++ "3.5" ++ "dBmV" ++ " ", "38.2 dB",
        "123456", "12", "0"⟩ (emptyState ℚ)).metrics.power ["1"] = some (7 / 2) :=
  have h := power_field_parses_literal decimalParseFloat " " "3.5" " " (by decide)
    (by decide) (by decide) (by decide) (by decide)
  ⟨h.1, (h.2 _ (emptyState ℚ) rfl).2 (7 / 2)
    (decimalParseFloat_of_scan "3.5" false 35 1 _ (by decide) (by norm_num))⟩

/-! ## Gauge vectors -/

theorem GaugeVec.set_ne {F : Type} (g : GaugeVec F) (k key : List String) (v : F)
    (h : k ≠ key) : g.set k v key = g key := by
  simp [GaugeVec.set, Ne.symm h]

theorem GaugeVec.setOpt_ne {F : Type} (g : GaugeVec F) (k key : List String) (o : Option F)
    (h : k ≠ key) : g.setOpt k o key = g key := by
  cases o with
  | none => rfl
  | some v => exact GaugeVec.set_ne g k key v h

/-- The projection of a list of rows leaves alone every identity series whose labels
are not those of one of the rows, and every numeric gauge whose label is not the
channel of one of the rows. -/
theorem project_rows_frame {F : Type} [One F] (ParseFloat : String → Option F)
    (rows : List Loc) (st : State F) (key : List String) :
    ((∀ r ∈ rows, (rowTexts r).identity ≠ key) →
      (rows.foldl (fun st r => project ParseFloat (rowTexts r) st) st).metrics.channelInfo
        key = st.metrics.channelInfo key) ∧
    ((∀ r ∈ rows, [(rowTexts r).Channel] ≠ key) →
      (rows.foldl (fun st r => project ParseFloat (rowTexts r) st) st).metrics.power key =
        st.metrics.power key ∧
      (rows.foldl (fun st r => project ParseFloat (rowTexts r) st) st).metrics.snrmer key =
        st.metrics.snrmer key ∧
      (rows.foldl (fun st r => project ParseFloat (rowTexts r) st)
        st).metrics.unerroredCodewords key = st.metrics.unerroredCodewords key ∧
      (rows.foldl (fun st r => project ParseFloat (rowTexts r) st)
        st).metrics.correctableCodewords key = st.metrics.correctableCodewords key ∧
      (rows.foldl (fun st r => project ParseFloat (rowTexts r) st)
        st).metrics.uncorrectableCodewords key = st.metrics.uncorrectableCodewords key) := by
  induction rows generalizing st with
  | nil => exact ⟨fun _ => rfl, fun _ => ⟨rfl, rfl, rfl, rfl, rfl⟩⟩
  | cons r rows ih =>
    simp only [List.foldl_cons, List.mem_cons, forall_eq_or_imp]
    have ih' := ih (project ParseFloat (rowTexts r) st)
    constructor
    · rintro ⟨hr, hrows⟩
      rw [ih'.1 hrows, project_metrics]
      exact GaugeVec.set_ne _ _ _ _ hr
    · rintro ⟨hr, hrows⟩
      obtain ⟨h1, h2, h3, h4, h5⟩ := ih'.2 hrows
      rw [h1, h2, h3, h4, h5, project_metrics]
      exact ⟨GaugeVec.setOpt_ne _ _ _ _ hr, GaugeVec.setOpt_ne _ _ _ _ hr,
        GaugeVec.setOpt_ne _ _ _ _ hr, GaugeVec.setOpt_ne _ _ _ _ hr,
        GaugeVec.setOpt_ne _ _ _ _ hr⟩

/-- C9. A cycle that fetches the status page changes no series whose key does not
occur among the rows it projects: an identity series whose five labels are not those
read for any surviving row, and a numeric gauge whose label is not the channel of any
surviving row, have after `getMetrics` exactly the value they had before (a gauge
that existed still exists, one that did not is still absent). -/
theorem stale_series_kept {F : Type} [One F] (flags : Flags) (net : Network)
    (ParseFloat : String → Option F) (st : State F) (doc : Node)
    (h : (fetchStatusPage flags net).2 = .ok doc) (key : List String) :
    ((∀ r ∈ survivingRows doc, (rowTexts r).identity ≠ key) →
      (getMetrics flags net ParseFloat st).state.metrics.channelInfo key =
        st.metrics.channelInfo key) ∧
    ((∀ r ∈ survivingRows doc, [(rowTexts r).Channel] ≠ key) →
      (getMetrics flags net ParseFloat st).state.metrics.power key =
        st.metrics.power key ∧
      (getMetrics flags net ParseFloat st).state.metrics.snrmer key =
        st.metrics.snrmer key ∧
      (getMetrics flags net ParseFloat st).state.metrics.unerroredCodewords key =
        st.metrics.unerroredCodewords key ∧
      (getMetrics flags net ParseFloat st).state.metrics.correctableCodewords key =
        st.metrics.correctableCodewords key ∧
      (getMetrics flags net ParseFloat st).state.metrics.uncorrectableCodewords key =
        st.metrics.uncorrectableCodewords key) := by
  rw [getMetrics_ok flags net ParseFloat st doc h]
  simp only [scrape_eq_foldl]
  exact project_rows_frame ParseFloat (survivingRows doc) st key

/-- Witness of C9: the page holds channel 1 only, now locked with QAM256. The gauges
of the stale channel 9 keep their values, and the identity series of channel 1 with
the outdated labels stays at 1 next to the new one. -/
theorem stale_series_kept_witness :
    (getMetrics defaultFlags (modemWith (statusPage [headerRow, sampleRow]))
      decimalParseFloat priorState).state.metrics.power ["9"] = some 1 ∧
    (getMetrics defaultFlags (modemWith (statusPage [headerRow, sampleRow]))
      decimalParseFloat priorState).state.metrics.uncorrectableCodewords ["9"] = some 40 ∧
    (getMetrics defaultFlags (modemWith (statusPage [headerRow, sampleRow]))
      decimalParseFloat priorState).state.metrics.channelInfo
        ["1", "Unlocked", "QAM64", "5", "549.0 MHz"] = some 1 ∧
    (getMetrics defaultFlags (modemWith (statusPage [headerRow, sampleRow]))
      decimalParseFloat priorState).state.metrics.channelInfo
        ["1", "Locked", "QAM256", "5", "549.0 MHz"] = some 1 :=
  have h9 := stale_series_kept defaultFlags (modemWith (statusPage [headerRow, sampleRow]))
    decimalParseFloat priorState (statusPage [headerRow, sampleRow]) rfl ["9"]
  have h1 := stale_series_kept defaultFlags (modemWith (statusPage [headerRow, sampleRow]))
    decimalParseFloat priorState (statusPage [headerRow, sampleRow]) rfl
    ["1", "Unlocked", "QAM64", "5", "549.0 MHz"]
  ⟨((h9.2 (by decide)).1).trans rfl, ((h9.2 (by decide)).2.2.2.2).trans rfl,
    (h1.1 (by decide)).trans rfl, rfl⟩

/-! ## The login and the fetch of the status page -/

/-- After the login page was fetched and parsed, the form is posted, and if the
modem accepts it the status page is requested. -/
theorem fetchStatusPage_after_login (flags : Flags) (net : Network) (r1 : Response)
    (loginDoc : Node)
    (h1 : net [] (.Get (flags.baseUrl ++ loginPath)) = .ok r1)
    (hdoc : r1.document = .ok loginDoc) :
    fetchStatusPage flags net =
      match net [.Get (flags.baseUrl ++ loginPath)] (loginRequest flags loginDoc) with
      | .fail err _ =>
        ([.Get (flags.baseUrl ++ loginPath), loginRequest flags loginDoc], .error err)
      | .ok _ =>
        ([.Get (flags.baseUrl ++ loginPath), loginRequest flags loginDoc,
            .Get (flags.baseUrl ++ statusPath)],
          NewDocumentFromResponse
            (net [.Get (flags.baseUrl ++ loginPath), loginRequest flags loginDoc]
              (.Get (flags.baseUrl ++ statusPath))).resp) := by
  simp only [fetchStatusPage, h1, NewDocumentFromResponse, hdoc]

/-- C5. When, after a successful login (the login page was fetched and parsed and
the modem accepted the form), the GET of the status page fails with a transport error
(an error and no response), `getMetrics` returns an error that is not `nil`, the
state is exactly the one before the call (no series set or changed, nothing
projected), and the poll of `main` panics with that error. The three requests were
sent. -/
theorem status_fetch_failure_is_fatal {F : Type} [One F] (flags : Flags) (net : Network)
    (ParseFloat : String → Option F) (st : State F) (r1 r2 : Response) (loginDoc : Node)
    (e : Error)
    (h1 : net [] (.Get (flags.baseUrl ++ loginPath)) = .ok r1)
    (hdoc : r1.document = .ok loginDoc)
    (h2 : net [.Get (flags.baseUrl ++ loginPath)] (loginRequest flags loginDoc) = .ok r2)
    (h3 : net [.Get (flags.baseUrl ++ loginPath), loginRequest flags loginDoc]
      (.Get (flags.baseUrl ++ statusPath)) = .fail e none) :
    (getMetrics flags net ParseFloat st).err = some "Response is nil" ∧
    (getMetrics flags net ParseFloat st).state = st ∧
    (getMetrics flags net ParseFloat st).requests =
      [.Get (flags.baseUrl ++ loginPath), loginRequest flags loginDoc,
        .Get (flags.baseUrl ++ statusPath)] ∧
    poll flags net ParseFloat st = .error "Response is nil" := by
  have hg : getMetrics flags net ParseFloat st =
      ⟨[.Get (flags.baseUrl ++ loginPath), loginRequest flags loginDoc,
        .Get (flags.baseUrl ++ statusPath)], st, some "Response is nil"⟩ := by
    simp only [getMetrics, fetchStatusPage_after_login flags net r1 loginDoc h1 hdoc, h2, h3,
      Reply.resp, NewDocumentFromResponse]
  refine ⟨by rw [hg], by rw [hg], by rw [hg], ?_⟩
  simp only [poll, hg]

/-- Witness of C5: the modem serves the login page and accepts the login, and the GET
of the status page fails with `connection refused`; the registry of the earlier cycle
is left as it was. -/
theorem status_fetch_failure_is_fatal_witness :
    (getMetrics defaultFlags
      (modem (loginPage (some (some "12345"))) (.fail "connection refused" none))
      decimalParseFloat priorState).err = some "Response is nil" ∧
    (getMetrics defaultFlags
      (modem (loginPage (some (some "12345"))) (.fail "connection refused" none))
      decimalParseFloat priorState).state = priorState ∧
    poll defaultFlags
      (modem (loginPage (some (some "12345"))) (.fail "connection refused" none))
      decimalParseFloat priorState = .error "Response is nil" :=
  have h := status_fetch_failure_is_fatal defaultFlags
    (modem (loginPage (some (some "12345"))) (.fail "connection refused" none))
    decimalParseFloat priorState ⟨.ok (loginPage (some (some "12345")))⟩
    ⟨.ok (Node.document [])⟩ (loginPage (some (some "12345"))) "connection refused"
    rfl rfl rfl rfl
  ⟨h.1, h.2.1, h.2.2.2⟩

/-! ## The token of the login page -/

mutual
/-- For a selector that does not look at the ancestors, the matches in a subtree are
the nodes of the subtree that pass the test, in document order. -/
theorem matchAll_nodes (m : Matcher) (p : Node → Bool) (hm : ∀ anc n, m anc n = p n) :
    ∀ (n : Node) (anc sibs : List Node),
      (matchAll m anc n sibs).map Loc.node = (subtree n).filter p
  | .mk t d a cs, anc, sibs => by
    have ih := matchAllList_nodes m p hm cs (.mk t d a cs :: anc)
    cases hp : p (.mk t d a cs) <;>
      simp [matchAll, subtree, hm, hp, ih, List.filter_cons]
/-- The same for the subtrees of a list of siblings. -/
theorem matchAllList_nodes (m : Matcher) (p : Node → Bool) (hm : ∀ anc n, m anc n = p n) :
    ∀ (cs anc : List Node),
      (matchAllList m anc cs).map Loc.node = (subtreeList cs).filter p
  | [], _ => rfl
  | c :: cs, anc => by
    simp [matchAllList, subtreeList, matchAll_nodes m p hm c anc cs,
      matchAllList_nodes m p hm cs anc]
end

/-- In a well-formed list of siblings, the search of `Find` reaches every node that
passes a test which only elements pass. -/
theorem findInChildren_nodes (m : Matcher) (p : Node → Bool) (hm : ∀ anc n, m anc n = p n)
    (hp : ∀ n, p n = true → n.type = .ElementNode) (anc : List Node) :
    ∀ cs : List Node, leavesOkList cs = true →
      (findInChildren m anc cs).map Loc.node = (subtreeList cs).filter p
  | [], _ => rfl
  | c :: cs, hwf => by
    simp only [leavesOkList, Bool.and_eq_true] at hwf
    have ih := findInChildren_nodes m p hm hp anc cs hwf.2
    by_cases hc : c.type = .ElementNode
    · simp [findInChildren, subtreeList, hc, ih, matchAll_nodes m p hm c anc cs]
    · obtain ⟨t, d, a, ccs⟩ := c
      have hleaf : ccs = [] := by
        have h := hwf.1
        simp only [leavesOk, Bool.and_eq_true, Bool.or_eq_true, beq_iff_eq,
          List.isEmpty_iff] at h
        rcases h.1 with h | h
        · exact absurd h hc
        · exact h
      have hpc : p (.mk t d a ccs) = false := by
        cases h : p (.mk t d a ccs) with
        | false => rfl
        | true => exact absurd (hp _ h) hc
      subst hleaf
      have hc' : ¬ t = .ElementNode := hc
      simp [findInChildren, subtreeList, subtree, Node.type, hc', ih, hpc]

/-- The selector `input[name=webToken]` is the test `isWebTokenInput`. -/
theorem webTokenSel_eq (anc : List Node) (n : Node) :
    webTokenSel anc n = isWebTokenInput n := by
  simp only [webTokenSel, andSel, tagSel, attrEqSel, isWebTokenInput]
  cases n.type == NodeType.ElementNode <;> simp

/-- The token that the program reads in a well-formed login page is the token of the
page in the words of the specification. -/
theorem webToken_eq_webTokenOf (doc : Node) (hwf : wellFormedPage doc = true) :
    ((docFind doc webTokenSel).Attr "value").1 = webTokenOf doc := by
  have hnodes : (docFind doc webTokenSel).map Loc.node =
      (descendants doc).filter isWebTokenInput := by
    simp only [docFind, Selection.Find, List.flatMap_cons, List.flatMap_nil, List.append_nil,
      Loc.find, descendants]
    exact findInChildren_nodes _ _ webTokenSel_eq
      (fun n h => by
        simp only [isWebTokenInput, Bool.and_eq_true, beq_iff_eq] at h
        exact h.1.1) _ _ hwf
  have hfind : (descendants doc).find? isWebTokenInput =
      ((docFind doc webTokenSel).map Loc.node).head? := by
    rw [hnodes, List.filter_head?]
  unfold webTokenOf
  rw [hfind]
  cases docFind doc webTokenSel with
  | nil => rfl
  | cons l ls =>
    simp only [Selection.Attr, List.map_cons, List.head?_cons]
    cases l.node.attr.find? (fun a => a.Key == "value") <;> rfl

/-- C7. For every well-formed login page that the cycle fetches, the second request
of `getMetrics` is the POST to the login action of a form whose `webToken` is the
token of the page (the `value` attribute of the first input element named `webToken`,
the empty string when there is no such element or it has no `value` attribute) and
whose `loginUsername` and `loginPassword` are the configured user and password. When
the page has no such input the form is posted all the same with an empty token, and
whatever the token, once the modem accepts the form the cycle goes on to the status
page: no error comes from a missing token. -/
theorem login_posts_page_token (flags : Flags) (net : Network) (r1 : Response)
    (loginDoc : Node)
    (h1 : net [] (.Get (flags.baseUrl ++ loginPath)) = .ok r1)
    (hdoc : r1.document = .ok loginDoc) (hwf : wellFormedPage loginDoc = true) :
    (fetchStatusPage flags net).1[1]? =
      some (.PostForm (flags.baseUrl ++ loginAction)
        [("webToken", [webTokenOf loginDoc]), ("loginUsername", [flags.user]),
          ("loginPassword", [flags.pass])]) ∧
    ((∀ n ∈ descendants loginDoc, isWebTokenInput n = false) →
      (fetchStatusPage flags net).1[1]? =
        some (.PostForm (flags.baseUrl ++ loginAction)
          [("webToken", [""]), ("loginUsername", [flags.user]),
            ("loginPassword", [flags.pass])])) ∧
    ∀ r2, net [.Get (flags.baseUrl ++ loginPath)] (loginRequest flags loginDoc) = .ok r2 →
      fetchStatusPage flags net =
        ([.Get (flags.baseUrl ++ loginPath), loginRequest flags loginDoc,
            .Get (flags.baseUrl ++ statusPath)],
          NewDocumentFromResponse
            (net [.Get (flags.baseUrl ++ loginPath), loginRequest flags loginDoc]
              (.Get (flags.baseUrl ++ statusPath))).resp) := by
  have hreq : loginRequest flags loginDoc =
      .PostForm (flags.baseUrl ++ loginAction)
        [("webToken", [webTokenOf loginDoc]), ("loginUsername", [flags.user]),
          ("loginPassword", [flags.pass])] := by
    simp only [loginRequest, webToken_eq_webTokenOf loginDoc hwf]
  have hsecond : (fetchStatusPage flags net).1[1]? = some (loginRequest flags loginDoc) := by
    rw [fetchStatusPage_after_login flags net r1 loginDoc h1 hdoc]
    cases net [.Get (flags.baseUrl ++ loginPath)] (loginRequest flags loginDoc) <;> rfl
  refine ⟨by rw [hsecond, hreq], ?_, ?_⟩
  · intro hnone
    have htok : webTokenOf loginDoc = "" := by
      have hf : (descendants loginDoc).find? isWebTokenInput = none := by
        rw [List.find?_eq_none]
        intro n hn
        simp [hnone n hn]
      simp only [webTokenOf, hf]
    rw [hsecond, hreq, htok]
  · intro r2 h2
    rw [fetchStatusPage_after_login flags net r1 loginDoc h1 hdoc, h2]

/-- Witness of C7: a login page whose hidden input carries the token `12345`, and a
login page without the input, for which the form is posted with an empty token. -/
theorem login_posts_page_token_witness :
    (fetchStatusPage defaultFlags
      (modem (loginPage (some (some "12345"))) (.ok ⟨.ok mixedPage⟩))).1[1]? =
      some (.PostForm "http://192.168.100.1/goform/GenieLogin"
        [("webToken", ["12345"]), ("loginUsername", ["admin"]),
          ("loginPassword", ["password"])]) ∧
    (fetchStatusPage defaultFlags (modem (loginPage none) (.ok ⟨.ok mixedPage⟩))).1[1]? =
      some (.PostForm "http://192.168.100.1/goform/GenieLogin"
        [("webToken", [""]), ("loginUsername", ["admin"]),
          ("loginPassword", ["password"])]) :=
  ⟨(login_posts_page_token defaultFlags
      (modem (loginPage (some (some "12345"))) (.ok ⟨.ok mixedPage⟩))
      ⟨.ok (loginPage (some (some "12345")))⟩ (loginPage (some (some "12345")))
      rfl rfl (by decide)).1,
    (login_posts_page_token defaultFlags (modem (loginPage none) (.ok ⟨.ok mixedPage⟩))
      ⟨.ok (loginPage none)⟩ (loginPage none) rfl rfl (by decide)).2.1 (by decide)⟩

/-! ## Decimal literals and adjacent cells -/

end Netgear

namespace NetgearBytes

/-! ## The byte level: rows whose labels are valid UTF-8, and the panic -/

theorem Run.ok_bind {F : Type} (st : State F) (f : State F → Run F) :
    (Run.ok st).bind f = f st := rfl

/-- With label values that are valid UTF-8, `WithLabelValues` does not panic. -/
theorem setGauge_valid {F : Type} (vec : Metrics F → GaugeVec F)
    (upd : Metrics F → GaugeVec F → Metrics F) (lvs : List GoString) (v : F) (st : State F)
    (h : lvs.all ValidString = true) :
    setGauge vec upd lvs v st =
      .ok { st with metrics := upd st.metrics ((vec st.metrics).set lvs v) } := by
  have hf : lvs.find? (fun l => !ValidString l) = none := by
    rw [List.find?_eq_none]
    intro l hl
    simp [List.all_eq_true.mp h l hl]
  simp only [setGauge, hf]

/-- With a label value that is not valid UTF-8, `WithLabelValues` panics and the
state is left as it is. -/
theorem setGauge_invalid {F : Type} (vec : Metrics F → GaugeVec F)
    (upd : Metrics F → GaugeVec F → Metrics F) (lvs : List GoString) (v : F) (st : State F)
    (h : lvs.all ValidString = false) :
    ∃ bad, bad ∈ lvs ∧ ValidString bad = false ∧
      setGauge vec upd lvs v st = .panic (.invalidLabel bad) st := by
  cases hf : lvs.find? (fun l => !ValidString l) with
  | none =>
    rw [List.find?_eq_none] at hf
    have : lvs.all ValidString = true := by
      rw [List.all_eq_true]
      intro l hl
      simpa using hf l hl
    rw [this] at h
    exact Bool.noConfusion h
  | some bad =>
    refine ⟨bad, List.mem_of_find?_eq_some hf, ?_, by simp only [setGauge, hf]⟩
    simpa using List.find?_some hf

/-- One numeric field of a row whose channel text is valid UTF-8. -/
theorem setNumeric_valid {F : Type} (ParseFloat : GoString → Option F) (field : String)
    (arg channel : GoString) (vec : Metrics F → GaugeVec F)
    (upd : Metrics F → GaugeVec F → Metrics F) (hupd : ∀ m, upd m (vec m) = m)
    (st : State F) (hch : ValidString channel = true) :
    setNumeric ParseFloat field arg channel vec upd st =
      .ok { metrics := upd st.metrics ((vec st.metrics).setOpt [channel] (ParseFloat arg))
            log := st.log ++ parseErrorLine ParseFloat field arg } := by
  unfold setNumeric parseErrorLine
  cases ParseFloat arg with
  | none => simp [GaugeVec.setOpt, hupd]
  | some v =>
    have h := setGauge_valid vec upd [channel] v st (by simp [hch])
    simp [h, GaugeVec.setOpt]

/-- A row whose five label texts are valid UTF-8 is projected without panic. -/
theorem project_valid {F : Type} [One F] (ParseFloat : GoString → Option F) (t : RowTexts)
    (st : State F) (hv : validLabels t = true) :
    project ParseFloat t st = .ok (projected ParseFloat t st) := by
  have hch : ValidString t.Channel = true := by
    simp only [validLabels, RowTexts.identity, List.all_cons, Bool.and_eq_true] at hv
    exact hv.1
  have hv' : [t.Channel, t.LockStatus, t.Modulation, t.ChannelID, t.Frequency].all
      ValidString = true := hv
  simp only [project]
  rw [setGauge_valid _ _ _ _ _ hv']
  simp only [Run.ok_bind]
  rw [setNumeric_valid ParseFloat _ _ _ (·.power) (fun m g => { m with power := g })
    (fun _ => rfl) _ hch]
  simp only [Run.ok_bind]
  rw [setNumeric_valid ParseFloat _ _ _ (·.snrmer) (fun m g => { m with snrmer := g })
    (fun _ => rfl) _ hch]
  simp only [Run.ok_bind]
  rw [setNumeric_valid ParseFloat _ _ _ (·.unerroredCodewords)
    (fun m g => { m with unerroredCodewords := g }) (fun _ => rfl) _ hch]
  simp only [Run.ok_bind]
  rw [setNumeric_valid ParseFloat _ _ _ (·.correctableCodewords)
    (fun m g => { m with correctableCodewords := g }) (fun _ => rfl) _ hch]
  simp only [Run.ok_bind]
  rw [setNumeric_valid ParseFloat _ _ _ (·.uncorrectableCodewords)
    (fun m g => { m with uncorrectableCodewords := g }) (fun _ => rfl) _ hch]
  simp only [projected, RowTexts.identity, List.append_assoc]

/-- A row one of whose five label texts is not valid UTF-8 is logged and then makes
`WithLabelValues` panic at line 159, before any gauge is set. -/
theorem project_invalid {F : Type} [One F] (ParseFloat : GoString → Option F) (t : RowTexts)
    (st : State F) (hv : validLabels t = false) :
    ∃ bad, bad ∈ t.identity ∧ ValidString bad = false ∧
      project ParseFloat t st =
        .panic (.invalidLabel bad) { st with log := st.log ++ [.row t.toList] } := by
  obtain ⟨bad, hmem, hbad, h⟩ := setGauge_invalid (F := F) (·.channelInfo)
    (fun m g => { m with channelInfo := g }) t.identity 1
    { st with log := st.log ++ [.row t.toList] } hv
  refine ⟨bad, hmem, hbad, ?_⟩
  simp only [RowTexts.identity] at h
  simp only [project, h, Run.bind]

theorem GaugeVec.set_at_key {F : Type} (g : GaugeVec F) (k : List GoString) (v : F) :
    g.set k v k = some v := by
  simp [GaugeVec.set]

theorem GaugeVec.setOpt_some_at_key {F : Type} (g : GaugeVec F) (k : List GoString) (v : F) :
    g.setOpt k (some v) k = some v := by
  simp [GaugeVec.setOpt, GaugeVec.set]

/-- A projected row has one row line in the log. -/
theorem projected_log_rows {F : Type} [One F] (ParseFloat : GoString → Option F)
    (t : RowTexts) (st : State F) :
    (projected ParseFloat t st).log.countP LogLine.isRow =
      st.log.countP LogLine.isRow + 1 := by
  have h : ∀ (field : String) (arg : GoString),
      List.countP LogLine.isRow (parseErrorLine ParseFloat field arg) = 0 := by
    intro field arg
    unfold parseErrorLine
    cases ParseFloat arg <;> rfl
  simp only [projected, List.countP_append, h]
  simp [LogLine.isRow]

/-- A row after the first with ten cells is handed to `project`. -/
theorem eachRow_hands_to_project {F : Type} [One F] (ParseFloat : GoString → Option F) (i : Nat)
    (s : Loc) (st : State F) (hi : 0 < i)
    (hc : (Selection.Find [s] (tagSel "td")).length = 10) :
    eachRow ParseFloat i s st = project ParseFloat (rowTexts s) st := by
  simp [eachRow, hi, hc, rowTexts]

/-- From index 1 on, the loop projects the rows that have ten cells, as long as their
label texts are valid UTF-8. -/
theorem eachFrom_eachRow_valid {F : Type} [One F] (ParseFloat : GoString → Option F)
    (rows : List Loc) (i : Nat) (hi : 0 < i) (st : State F)
    (hv : ∀ r ∈ rows.filter (fun r => (Selection.Find [r] (tagSel "td")).length = 10),
      validLabels (rowTexts r) = true) :
    eachFrom (eachRow ParseFloat) i rows st =
      .ok ((rows.filter (fun r => (Selection.Find [r] (tagSel "td")).length = 10)).foldl
        (fun st r => projected ParseFloat (rowTexts r) st) st) := by
  induction rows generalizing i st with
  | nil => rfl
  | cons r rows ih =>
    by_cases h : (Selection.Find [r] (tagSel "td")).length = 10
    · have hr : validLabels (rowTexts r) = true := hv r (by simp [h])
      have hrows : ∀ r' ∈ rows.filter
          (fun r => (Selection.Find [r] (tagSel "td")).length = 10),
          validLabels (rowTexts r') = true := fun r' hr' => hv r' (by
        simp only [List.filter_cons, h, decide_True, if_true]
        exact List.mem_cons_of_mem _ hr')
      rw [eachFrom, eachRow_hands_to_project ParseFloat i r st hi h, project_valid _ _ _ hr,
        Run.ok_bind, ih (i + 1) (Nat.succ_pos i) _ hrows]
      simp [h]
    · have hrows : ∀ r' ∈ rows.filter
          (fun r => (Selection.Find [r] (tagSel "td")).length = 10),
          validLabels (rowTexts r') = true := fun r' hr' => hv r' (by
        simpa [List.filter_cons, h] using hr')
      have hskip : eachRow ParseFloat i r st = .ok st := by
        simp [eachRow, hi, h]
      rw [eachFrom, hskip, Run.ok_bind, ih (i + 1) (Nat.succ_pos i) _ hrows]
      simp [h]

/-- The projection of a status page whose surviving rows have label texts that are
valid UTF-8 completes, with the surviving rows projected in document order. -/
theorem scrape_valid {F : Type} [One F] (ParseFloat : GoString → Option F) (doc : Node)
    (st : State F) (hv : ∀ r ∈ survivingRows doc, validLabels (rowTexts r) = true) :
    scrape ParseFloat doc st =
      .ok ((survivingRows doc).foldl (fun st r => projected ParseFloat (rowTexts r) st)
        st) := by
  unfold scrape
  unfold survivingRows at hv ⊢
  cases hrows : docFind doc statusRowSel with
  | nil => rfl
  | cons h rows =>
    rw [hrows] at hv
    have h0 : eachRow ParseFloat 0 h st = .ok st := by simp [eachRow]
    simp only [List.tail_cons] at hv ⊢
    rw [eachFrom, h0, Run.ok_bind, eachFrom_eachRow_valid ParseFloat rows 1 Nat.one_pos st hv]

/-- From index 1 on, the loop panics when one of the rows with ten cells has a label
text that is not valid UTF-8. -/
theorem eachFrom_eachRow_invalid {F : Type} [One F] (ParseFloat : GoString → Option F)
    (rows : List Loc) (i : Nat) (hi : 0 < i) (st : State F)
    (hv : ∃ r ∈ rows.filter (fun r => (Selection.Find [r] (tagSel "td")).length = 10),
      validLabels (rowTexts r) = false) :
    ∃ p st', eachFrom (eachRow ParseFloat) i rows st = .panic p st' := by
  induction rows generalizing i st with
  | nil =>
    obtain ⟨r, hr, _⟩ := hv
    simp at hr
  | cons r rows ih =>
    obtain ⟨r', hr', hbad⟩ := hv
    by_cases h : (Selection.Find [r] (tagSel "td")).length = 10
    · cases hr : validLabels (rowTexts r) with
      | false =>
        obtain ⟨bad, _, _, hp⟩ := project_invalid ParseFloat (rowTexts r) st hr
        exact ⟨_, _, by
          rw [eachFrom, eachRow_hands_to_project ParseFloat i r st hi h, hp]; rfl⟩
      | true =>
        have hmem : r' ∈ rows.filter
            (fun r => (Selection.Find [r] (tagSel "td")).length = 10) := by
          simp only [List.filter_cons, h, decide_True, if_true, List.mem_cons] at hr'
          rcases hr' with rfl | hr'
          · rw [hr] at hbad
            exact Bool.noConfusion hbad
          · exact hr'
        obtain ⟨p, st', hp⟩ := ih (i + 1) (Nat.succ_pos i)
          (projected ParseFloat (rowTexts r) st) ⟨r', hmem, hbad⟩
        exact ⟨p, st', by
          rw [eachFrom, eachRow_hands_to_project ParseFloat i r st hi h,
            project_valid _ _ _ hr, Run.ok_bind, hp]⟩
    · have hmem : r' ∈ rows.filter
          (fun r => (Selection.Find [r] (tagSel "td")).length = 10) := by
        simpa [List.filter_cons, h] using hr'
      have hskip : eachRow ParseFloat i r st = .ok st := by
        simp [eachRow, hi, h]
      obtain ⟨p, st', hp⟩ := ih (i + 1) (Nat.succ_pos i) st ⟨r', hmem, hbad⟩
      exact ⟨p, st', by rw [eachFrom, hskip, Run.ok_bind, hp]⟩

/-- The projection of a status page panics when a surviving row has a label text that
is not valid UTF-8: the condition of `scrape_valid` cannot be dropped. -/
theorem scrape_invalid {F : Type} [One F] (ParseFloat : GoString → Option F) (doc : Node)
    (st : State F) (hv : ∃ r ∈ survivingRows doc, validLabels (rowTexts r) = false) :
    ∃ p st', scrape ParseFloat doc st = .panic p st' := by
  unfold scrape
  unfold survivingRows at hv
  cases hrows : docFind doc statusRowSel with
  | nil =>
    rw [hrows] at hv
    obtain ⟨r, hr, _⟩ := hv
    simp at hr
  | cons h rows =>
    rw [hrows] at hv
    have h0 : eachRow ParseFloat 0 h st = .ok st := by simp [eachRow]
    simp only [List.tail_cons] at hv
    obtain ⟨p, st', hp⟩ := eachFrom_eachRow_invalid ParseFloat rows 1 Nat.one_pos st hv
    exact ⟨p, st', by rw [eachFrom, h0, Run.ok_bind, hp]⟩

/-- Each projected row adds one row line to the log. -/
theorem foldl_projected_log_rows {F : Type} [One F] (ParseFloat : GoString → Option F)
    (rows : List Loc) (st : State F) :
    (rows.foldl (fun st r => projected ParseFloat (rowTexts r) st) st).log.countP
        LogLine.isRow = st.log.countP LogLine.isRow + rows.length := by
  induction rows generalizing st with
  | nil => rfl
  | cons r rows ih =>
    rw [List.foldl_cons, ih, projected_log_rows, List.length_cons]
    omega

/-- C1, amended. For every status page that a cycle fetches and whose surviving rows
(the rows selected by `.in-frame-table table tr`, the first selected row excluded
whatever its cells, that contain exactly ten `td` cells) have label texts that are
valid UTF-8: `getMetrics` returns no error and does not panic, the state it leaves is
the projection of the surviving rows one after the other, and the number of rows it
projects (the row lines it adds to the log) is the number of surviving rows. -/
theorem valid_pages_records_eq_surviving_rows {F : Type} [One F] (flags : Flags)
    (net : Network) (ParseFloat : GoString → Option F) (st : State F) (doc : Node)
    (h : (fetchStatusPage flags net).2 = .ok doc)
    (hv : ∀ r ∈ survivingRows doc, validLabels (rowTexts r) = true) :
    (getMetrics flags net ParseFloat st).ending = .returned none ∧
    (getMetrics flags net ParseFloat st).state =
      (survivingRows doc).foldl (fun st r => projected ParseFloat (rowTexts r) st) st ∧
    (getMetrics flags net ParseFloat st).state.log.countP LogLine.isRow =
      st.log.countP LogLine.isRow + (survivingRows doc).length := by
  have hg : getMetrics flags net ParseFloat st =
      ⟨(fetchStatusPage flags net).1,
        (survivingRows doc).foldl (fun st r => projected ParseFloat (rowTexts r) st) st,
        .returned none⟩ := by
    unfold getMetrics
    generalize fetchStatusPage flags net = r at h
    obtain ⟨reqs, res⟩ := r
    simp only at h
    subst h
    simp only [scrape_valid ParseFloat doc st hv]
  rw [hg]
  exact ⟨rfl, rfl, foldl_projected_log_rows ParseFloat (survivingRows doc) st⟩

/-- Witness of C1, amended: all texts of the page are valid UTF-8, the first selected
row has ten cells and is passed over, an eight-cell row stands between two ten-cell
rows, and two rows are projected. -/
theorem valid_pages_records_eq_surviving_rows_witness :
    (getMetrics defaultFlags (modemWith mixedPage) decimalParseFloat
      (emptyState ℚ)).ending = .returned none ∧
    (getMetrics defaultFlags (modemWith mixedPage) decimalParseFloat
      (emptyState ℚ)).state.log.countP LogLine.isRow =
        0 + (survivingRows mixedPage).length ∧
    (survivingRows mixedPage).length = 2 :=
  ⟨(valid_pages_records_eq_surviving_rows defaultFlags (modemWith mixedPage)
      decimalParseFloat (emptyState ℚ) mixedPage rfl (by decide)).1,
    (valid_pages_records_eq_surviving_rows defaultFlags (modemWith mixedPage)
      decimalParseFloat (emptyState ℚ) mixedPage rfl (by decide)).2.2,
    by decide⟩

/-- C1 as stated fails on a page with a label text that is not valid UTF-8. The page
`badPage` is fetched and has two surviving rows; the first is projected, the channel
text of the second is the byte `0xFF`, and `WithLabelValues` panics at line 159:
`getMetrics` does not return, and one record is projected for two surviving rows
(the identity series of the second row is absent). -/
theorem invalid_label_page_panics :
    (survivingRows badPage).length = 2 ∧
    (getMetrics defaultFlags (modemWith badPage) decimalParseFloat
      (emptyState ℚ)).ending = .panicked (.invalidLabel [0xFF]) ∧
    (getMetrics defaultFlags (modemWith badPage) decimalParseFloat
      (emptyState ℚ)).ending ≠ .returned none ∧
    (getMetrics defaultFlags (modemWith badPage) decimalParseFloat
      (emptyState ℚ)).state.metrics.channelInfo
        [utf8 "1", utf8 "Locked", utf8 "QAM256", utf8 "5", utf8 "549.0 MHz"] = some 1 ∧
    (getMetrics defaultFlags (modemWith badPage) decimalParseFloat
      (emptyState ℚ)).state.metrics.channelInfo
        [[0xFF], utf8 "Locked", utf8 "QAM256", utf8 "5", utf8 "549.0 MHz"] = none := by
  refine ⟨by decide, by decide, by decide, rfl, rfl⟩

/-- The value of the reference parser from the scan of the literal. -/
theorem decimalParseFloat_bytes_of_scan (s : GoString) (neg : Bool) (m k : Nat) (q : ℚ)
    (h : Netgear.scanDecimal (s.map (fun b => Char.ofNat b.toNat)) = some (neg, m, k))
    (hq : (if neg then -1 else 1) * (m : ℚ) / (10 : ℚ) ^ k = q) :
    decimalParseFloat s = some q := by
  simp only [decimalParseFloat, h, Option.map_some']
  rw [← hq]

/-- C4, amended. For every row after the first with ten cells whose five label texts
are valid UTF-8, and every prior state: the row is projected without panic (one row
line is logged), the identity series of the row is set to 1, and each of the five
numeric fields is handled on its own: when its text does not parse, its gauge vector
is exactly what it was before, and when it parses with value `v`, the gauge of the
row's channel is `v`, whatever the other fields do. -/
theorem valid_row_fields_independent {F : Type} [One F] (ParseFloat : GoString → Option F)
    (i : Nat) (s : Loc) (st : State F) (hi : 0 < i)
    (hc : (Selection.Find [s] (tagSel "td")).length = 10)
    (hv : validLabels (rowTexts s) = true) :
    ∃ st', eachRow ParseFloat i s st = .ok st' ∧
      st'.log.countP LogLine.isRow = st.log.countP LogLine.isRow + 1 ∧
      st'.metrics.channelInfo (rowTexts s).identity = some 1 ∧
      ((ParseFloat (powerArg (rowTexts s)) = none → st'.metrics.power = st.metrics.power) ∧
        ∀ v, ParseFloat (powerArg (rowTexts s)) = some v →
          st'.metrics.power [(rowTexts s).Channel] = some v) ∧
      ((ParseFloat (snrmerArg (rowTexts s)) = none →
          st'.metrics.snrmer = st.metrics.snrmer) ∧
        ∀ v, ParseFloat (snrmerArg (rowTexts s)) = some v →
          st'.metrics.snrmer [(rowTexts s).Channel] = some v) ∧
      ((ParseFloat (unerroredArg (rowTexts s)) = none →
          st'.metrics.unerroredCodewords = st.metrics.unerroredCodewords) ∧
        ∀ v, ParseFloat (unerroredArg (rowTexts s)) = some v →
          st'.metrics.unerroredCodewords [(rowTexts s).Channel] = some v) ∧
      ((ParseFloat (correctableArg (rowTexts s)) = none →
          st'.metrics.correctableCodewords = st.metrics.correctableCodewords) ∧
        ∀ v, ParseFloat (correctableArg (rowTexts s)) = some v →
          st'.metrics.correctableCodewords [(rowTexts s).Channel] = some v) ∧
      ((ParseFloat (uncorrectableArg (rowTexts s)) = none →
          st'.metrics.uncorrectableCodewords = st.metrics.uncorrectableCodewords) ∧
        ∀ v, ParseFloat (uncorrectableArg (rowTexts s)) = some v →
          st'.metrics.uncorrectableCodewords [(rowTexts s).Channel] = some v) := by
  have hfield : ∀ (g : GaugeVec F) (o : Option F),
      (o = none → g.setOpt [(rowTexts s).Channel] o = g) ∧
        ∀ v, o = some v → g.setOpt [(rowTexts s).Channel] o [(rowTexts s).Channel] =
          some v := by
    intro g o
    refine ⟨fun h => by rw [h]; rfl, fun v h => by rw [h]; exact GaugeVec.setOpt_some_at_key _ _ _⟩
  refine ⟨projected ParseFloat (rowTexts s) st, ?_, projected_log_rows _ _ _, ?_⟩
  · rw [eachRow_hands_to_project ParseFloat i s st hi hc, project_valid _ _ _ hv]
  · exact ⟨GaugeVec.set_at_key _ _ _, hfield _ _, hfield _ _, hfield _ _, hfield _ _,
      hfield _ _⟩

/-- Witness of C4, amended: the labels of the row are valid UTF-8 and its power text
is `N/A`; the power gauge of channel 1 keeps the 2.5 of the earlier cycle, the
identity series of the row is set, and the snr/mer gauge and the unerrored codewords
of channel 1 are set from the row. -/
theorem valid_row_fields_independent_witness :
    ∃ st', eachRow decimalParseFloat 1 ⟨naRow, [], []⟩ priorState = .ok st' ∧
      st'.metrics.power [utf8 "1"] = some (5 / 2) ∧
      st'.metrics.channelInfo
        [utf8 "1", utf8 "Locked", utf8 "QAM256", utf8 "5", utf8 "549.0 MHz"] = some 1 ∧
      st'.metrics.snrmer [utf8 "1"] = some (191 / 5) ∧
      st'.metrics.unerroredCodewords [utf8 "1"] = some 123456 :=
  let ⟨st', h0, _, h2, hp, hs, hu, _, _⟩ :=
    valid_row_fields_independent decimalParseFloat 1 ⟨naRow, [], []⟩ priorState
      (by decide) (by decide) (by decide)
  ⟨st', h0, (congrFun (hp.1 (by decide)) [utf8 "1"]).trans rfl, h2,
    hs.2 _ (decimalParseFloat_bytes_of_scan (utf8 "38.2") false 382 1 _ (by decide) (by norm_num)),
    hu.2 _
      (decimalParseFloat_bytes_of_scan (utf8 "123456") false 123456 0 _ (by decide)
        (by norm_num))⟩

/-- C4 as stated fails on a row with a label text that is not valid UTF-8. The row
`badRow` comes after the first and has ten cells, its power text `N/A` does not parse
and its snr/mer text parses; its channel text is the byte `0xFF`, so `WithLabelValues`
panics at line 159: the row is not projected without error, and neither its identity
series nor the snr/mer gauge of its channel is set. -/
theorem invalid_label_row_panics :
    (Selection.Find [⟨badRow, [], []⟩] (tagSel "td")).length = 10 ∧
    decimalParseFloat (powerArg (rowTexts ⟨badRow, [], []⟩)) = none ∧
    decimalParseFloat (snrmerArg (rowTexts ⟨badRow, [], []⟩)) = some (191 / 5) ∧
    (∀ st', eachRow decimalParseFloat 1 ⟨badRow, [], []⟩ priorState ≠ .ok st') ∧
    ∃ st', eachRow decimalParseFloat 1 ⟨badRow, [], []⟩ priorState =
        .panic (.invalidLabel [0xFF]) st' ∧
      st'.metrics.channelInfo (rowTexts ⟨badRow, [], []⟩).identity = none ∧
      st'.metrics.snrmer [(rowTexts ⟨badRow, [], []⟩).Channel] = none := by
  have hp := project_invalid decimalParseFloat (rowTexts ⟨badRow, [], []⟩) priorState
    (by decide)
  have he := eachRow_hands_to_project decimalParseFloat 1 ⟨badRow, [], []⟩ priorState (by decide)
    (by decide)
  obtain ⟨bad, hmem, hbad, hpanic⟩ := hp
  have hbadeq : bad = [0xFF] := by
    have hall : ∀ l ∈ (rowTexts ⟨badRow, [], []⟩).identity,
        ValidString l = false → l = [0xFF] := by decide
    exact hall bad hmem hbad
  subst hbadeq
  refine ⟨by decide, by decide,
    decimalParseFloat_bytes_of_scan _ false 382 1 _ (by decide) (by norm_num), ?_, ?_⟩
  · intro st' h
    rw [he, hpanic] at h
    exact Run.noConfusion h
  · exact ⟨_, he.trans hpanic, rfl, rfl⟩

end NetgearBytes
